import Mathlib

/-!
Verification of the markdown rendering engine of the cokacdir repository
(src file containing `renderMarkdown`, `calculateTextWidth`, the table
layout helpers and the inline tokenizer).

The TypeScript source is shallowly embedded: strings are `List Char` (one
entry per Unicode code point, matching JavaScript `for..of` iteration;
where the source indexes UTF-16 code units, as in `String.prototype.substring`,
the embedding counts units explicitly), the JS regular expressions used by the
parser are translated into explicit matching functions with the exact
backtracking semantics of the specific patterns, and the `renderMarkdown`
line loop becomes a fold over the split lines carrying the same mutable
state (`previousLineWasEmpty`, code-block state, table state).  React
elements are abstracted to a `Block` datatype recording exactly the data
each element construction receives; numeric layout arithmetic that JS does
in floating point is modelled with exact rationals.
-/

namespace Cokacdir

/-! ## Character classes and small list utilities -/

/-- JavaScript whitespace (the `\s` class / `String.prototype.trim`):
space, tab, newline, carriage return, vertical tab, form feed, NBSP, BOM.
(The rarer Unicode `Zs` code points are omitted; none can be produced by
the inputs considered here.) -/
def jsWs (c : Char) : Bool :=
  c = ' ' || c = '\t' || c = '\n' || c = '\r' ||
  c = '\x0b' || c = '\x0c' || c = '\u00A0' || c = '\uFEFF'

/-- JavaScript `\w`: ASCII letters, digits and underscore. -/
def wordChar (c : Char) : Bool :=
  ('a' ≤ c && c ≤ 'z') || ('A' ≤ c && c ≤ 'Z') || ('0' ≤ c && c ≤ '9') || c = '_'

/-- Does the first list start with the second (`String.prototype.startsWith`)? -/
def startsWithL : List Char → List Char → Bool
  | _, [] => true
  | [], _ :: _ => false
  | a :: as, b :: bs => a = b && startsWithL as bs

/-- Does the first list end with the second (`String.prototype.endsWith`)? -/
def endsWithL (s pat : List Char) : Bool :=
  startsWithL s.reverse pat.reverse

/-- Split a list on every occurrence of a character (JS `String.prototype.split`
with a one-character separator): always returns at least one segment. -/
def splitOnChar (sep : Char) : List Char → List (List Char)
  | [] => [[]]
  | c :: t =>
    match splitOnChar sep t with
    | [] => [[]]
    | l :: ls => if c = sep then [] :: l :: ls else (c :: l) :: ls

/-- Join segments with a separator character (inverse of `splitOnChar`). -/
def joinChar (sep : Char) : List (List Char) → List Char
  | [] => []
  | [l] => l
  | l :: ls => l ++ sep :: joinChar sep ls

/-- JS `String.prototype.trim` on the code-point list. -/
def jsTrim (s : List Char) : List Char :=
  ((s.dropWhile jsWs).reverse.dropWhile jsWs).reverse

/-- `text.split(/\r?\n/)`: split on newlines, a carriage return immediately
before the newline is consumed with it. -/
def splitLines : List Char → List (List Char)
  | [] => [[]]
  | '\r' :: '\n' :: t => [] :: splitLines t
  | '\n' :: t => [] :: splitLines t
  | c :: t =>
    match splitLines t with
    | [] => [[c]]
    | l :: ls => (c :: l) :: ls

/-- Join lines with a single newline. -/
def joinLines : List (List Char) → List Char :=
  joinChar '\n'

/-! ## The line-classification regexes of `renderMarkdown`

Each JS pattern from the `patterns` object is translated to a matching
function whose behaviour (including greedy/lazy backtracking) coincides with
the pattern on every input line. -/

/-- `patterns.header = /^ *(#{1,4}) +(.*)/`: leading spaces, a run of one to
four hashes (a run of five or more never matches, since backtracking still
leaves a `#` before the required space), at least one space, then the rest.
Returns the level and the text after the (greedily consumed) spaces. -/
def headerMatch (s : List Char) : Option (Nat × List Char) :=
  let rest := s.dropWhile (· = ' ')
  let hashes := rest.takeWhile (· = '#')
  let afterH := rest.dropWhile (· = '#')
  if 1 ≤ hashes.length ∧ hashes.length ≤ 4 ∧ afterH.head? = some ' ' then
    some (hashes.length, afterH.dropWhile (· = ' '))
  else none

/-- `patterns.codeFence = /^ *(`{3,}|~{3,}) *(\w*?) *$/`: leading spaces, a
maximal run of at least three backticks or tildes (a shorter-run backtrack
always fails on the leftover fence character), then spaces, an optional word
(the language tag), spaces, end of line.  Returns the fence character, the
run length and the language characters. -/
def fenceMatch (s : List Char) : Option (Char × Nat × List Char) :=
  let rest := s.dropWhile (· = ' ')
  match rest.head? with
  | none => none
  | some c =>
    if c = '`' ∨ c = '~' then
      let run := rest.takeWhile (· = c)
      let after := rest.dropWhile (· = c)
      if 3 ≤ run.length then
        let a1 := after.dropWhile (· = ' ')
        let w := a1.takeWhile wordChar
        let a2 := a1.dropWhile wordChar
        if a2.all (· = ' ') then some (c, run.length, w) else none
      else none
    else none

/-- `patterns.horizontalRule = /^ *([-*_] *){3,} *$/`: the line consists only
of spaces and rule characters `-`, `*`, `_` (mixing allowed by the regex),
with at least three rule characters. -/
def hrMatch (s : List Char) : Bool :=
  s.all (fun c => c = ' ' || c = '-' || c = '*' || c = '_') &&
  3 ≤ (s.filter (fun c => c = '-' || c = '*' || c = '_')).length

/-- `patterns.unorderedList = /^([ \t]*)([-*+]) +(.*)/`:
indent, one marker, at least one space, text after the greedy spaces. -/
def ulMatch (s : List Char) : Option (List Char × Char × List Char) :=
  let indent := s.takeWhile (fun c => c = ' ' || c = '\t')
  match s.dropWhile (fun c => c = ' ' || c = '\t') with
  | m :: r =>
    if (m = '-' ∨ m = '*' ∨ m = '+') ∧ r.head? = some ' ' then
      some (indent, m, r.dropWhile (· = ' '))
    else none
  | [] => none

/-- `patterns.orderedList = /^([ \t]*)(\d+)\. +(.*)/`:
indent, a digit run, a dot, at least one space, text after the spaces. -/
def olMatch (s : List Char) : Option (List Char × List Char × List Char) :=
  let indent := s.takeWhile (fun c => c = ' ' || c = '\t')
  let r := s.dropWhile (fun c => c = ' ' || c = '\t')
  let digits := r.takeWhile (fun c => '0' ≤ c && c ≤ '9')
  let afterD := r.dropWhile (fun c => '0' ≤ c && c ≤ '9')
  match afterD with
  | '.' :: r2 =>
    if 1 ≤ digits.length ∧ r2.head? = some ' ' then
      some (indent, digits, r2.dropWhile (· = ' '))
    else none
  | _ => none

/-- `patterns.tableRow = /^\s*\|(.+)\|\s*$/`: after leading whitespace a pipe,
then a nonempty newline-free group up to the last pipe that is followed only
by whitespace.  Returns the group between the two pipes.
(Input lines never contain a newline, so the greedy group cannot be forced
to backtrack across one.) -/
def tableRowMatch (s : List Char) : Option (List Char) :=
  match s.dropWhile jsWs with
  | '|' :: rest =>
    match rest.reverse.dropWhile jsWs with
    | '|' :: midRev =>
      let g := midRev.reverse
      if g ≠ [] ∧ '\n' ∉ g then some g else none
    | _ => none
  | _ => none

/-- One separator cell `:?-+:?`: optional colon, at least one dash, optional
colon (applied to an already-trimmed segment). -/
def isDashCore (t : List Char) : Bool :=
  let t1 := if t.head? = some ':' then t.tail else t
  let ds := t1.takeWhile (· = '-')
  let r := t1.drop ds.length
  1 ≤ ds.length && (r = [] || r = [':'])

/-- A segment between pipes of a separator line: whitespace-trimmed dash core. -/
def isDashSeg (s : List Char) : Bool :=
  isDashCore (jsTrim s)

/-- `patterns.tableSeparator = /^\s*\|?\s*(:?-+:?)\s*(\|\s*(:?-+:?)\s*)+\|?\s*$/`:
splitting on pipes, every inner segment is a dash cell, the outer segments are
dash cells or pure whitespace (for an optional outer pipe), and at least two
dash cells occur in total. -/
def tableSepMatch (s : List Char) : Bool :=
  let segs := splitOnChar '|' s
  match segs with
  | [] => false
  | [_] => false
  | first :: r1 :: rs =>
    let rest := r1 :: rs
    let last := rest.getLast (by simp)
    let mid := rest.dropLast
    let firstDash := isDashSeg first
    let lastDash := isDashSeg last
    (firstDash || first.all jsWs) &&
    (lastDash || last.all jsWs) &&
    mid.all isDashSeg &&
    2 ≤ mid.length + (if firstDash then 1 else 0) + (if lastDash then 1 else 0)

/-! ## Blocks and the `renderMarkdown` state machine

A `Block` records the data passed to each element construction in the
source's line loop: plain `<Box><ProcessInlineText/></Box>` lines are
`Paragraph`, the header/list/rule/code/table constructions keep their
arguments, and the blank-line `<Box height={1}/>` is `Spacer`. -/

inductive Block where
  | Paragraph (text : String)
  | Header (level : Nat) (text : String)
  | ListItem (ordered : Bool) (marker : String) (indent : String) (text : String)
  | CodeBlock (lines : List String) (language : Option String)
  | Table (headers : List String) (rows : List (List String))
  | HorizontalRule
  | Spacer
deriving DecidableEq

/-- The mutable state of the `renderMarkdown` line loop. -/
structure ParseState where
  blocks : List Block
  previousLineWasEmpty : Bool
  codeBlockActive : Bool
  codeBlockLines : List String
  codeBlockLanguage : Option String
  codeBlockFence : List Char
  tableActive : Bool
  tableHeaderCells : List String
  tableDataRows : List (List String)
deriving DecidableEq

def initState : ParseState :=
  { blocks := [], previousLineWasEmpty := true,
    codeBlockActive := false, codeBlockLines := [], codeBlockLanguage := none,
    codeBlockFence := [],
    tableActive := false, tableHeaderCells := [], tableDataRows := [] }

/-- `appendBlock`: push a block and clear the blank-line flag. -/
def appendBlock (st : ParseState) (b : Block) : ParseState :=
  { st with blocks := st.blocks ++ [b], previousLineWasEmpty := false }

/-- The blank-line branch: push a `Spacer` only if the previous line was
not already blank. -/
def pushSpacer (st : ParseState) : ParseState :=
  if st.previousLineWasEmpty then st
  else { st with blocks := st.blocks ++ [Block.Spacer], previousLineWasEmpty := true }

/-- Closing a code fence: emit the buffered `CodeBlock` and reset the state. -/
def closeCode (st : ParseState) : ParseState :=
  { appendBlock st (Block.CodeBlock st.codeBlockLines st.codeBlockLanguage) with
      codeBlockActive := false, codeBlockLines := [], codeBlockLanguage := none,
      codeBlockFence := [] }

/-- Inside a code block, a non-closing line is buffered verbatim. -/
def bufferCode (st : ParseState) (line : List Char) : ParseState :=
  { st with codeBlockLines := st.codeBlockLines ++ [String.mk line] }

/-- The closing-fence test:
`fenceMatch && fenceMatch[1].startsWith(codeBlockFence[0]) && fenceMatch[1].length >= codeBlockFence.length`
(the matched group is a homogeneous run, so `startsWith` of the first stored
character is the same-character test). -/
def isClosingFence (fence : List Char) (line : List Char) : Bool :=
  match fenceMatch line with
  | some (c, n, _) => fence.head? = some c && fence.length ≤ n
  | none => false

/-- Flushing an open table: the `Table` block is emitted only when at least
one header cell and at least one data row were collected, then the table
state is cleared. -/
def flushTable (st : ParseState) : ParseState :=
  let st1 :=
    if st.tableHeaderCells ≠ [] ∧ st.tableDataRows ≠ [] then
      appendBlock st (Block.Table st.tableHeaderCells st.tableDataRows)
    else st
  { st1 with tableActive := false, tableHeaderCells := [], tableDataRows := [] }

/-- Cells of a pipe row: the text between the outer pipes split on `|`,
each cell trimmed. -/
def rowCells (inner : List Char) : List String :=
  (splitOnChar '|' inner).map (fun cs => String.mk (jsTrim cs))

/-- Coerce a data row to the header's cell count: pad with empty strings,
then truncate. -/
def coerceCells (cells : List String) (n : Nat) : List String :=
  (cells ++ List.replicate (n - cells.length) "").take n

/-- The tail of the `Normal`-state priority chain, after the fence and table
branches: horizontal rule, header, unordered list, ordered list, blank line
(spacer), plain paragraph. -/
def normalClassify (st : ParseState) (line : List Char) : ParseState :=
  if hrMatch line then appendBlock st Block.HorizontalRule
  else
    match headerMatch line with
    | some (lvl, txt) => appendBlock st (Block.Header lvl (String.mk txt))
    | none =>
      match ulMatch line with
      | some (indent, m, txt) =>
        appendBlock st (Block.ListItem false (String.mk [m]) (String.mk indent) (String.mk txt))
      | none =>
        match olMatch line with
        | some (indent, num, txt) =>
          appendBlock st (Block.ListItem true (String.mk num) (String.mk indent) (String.mk txt))
        | none =>
          if (jsTrim line).isEmpty then pushSpacer st
          else appendBlock st (Block.Paragraph (String.mk line))

/-- One iteration of the `lineArray.forEach` body.  `next?` is the one-line
lookahead `lineArray[lineIndex + 1]` used by the table-start branch. -/
def step (st : ParseState) (line : List Char) (next? : Option (List Char)) : ParseState :=
  if st.codeBlockActive then
    if isClosingFence st.codeBlockFence line then closeCode st else bufferCode st line
  else
    match fenceMatch line with
    | some (c, n, lang) =>
      -- Code block start (checked before every table branch: an open table
      -- is left pending, not flushed).
      { st with codeBlockActive := true,
                codeBlockFence := List.replicate n c,
                codeBlockLanguage := if lang.isEmpty then none else some (String.mk lang) }
    | none =>
      match tableRowMatch line with
      | some inner =>
        if st.tableActive then
          if tableSepMatch line then st
          else
            { st with tableDataRows :=
                st.tableDataRows ++ [coerceCells (rowCells inner) st.tableHeaderCells.length] }
        else
          match next? with
          | some nl =>
            if tableSepMatch nl then
              { st with tableActive := true, tableHeaderCells := rowCells inner,
                        tableDataRows := [] }
            else appendBlock st (Block.Paragraph (String.mk line))
          | none => appendBlock st (Block.Paragraph (String.mk line))
      | none =>
        if st.tableActive then
          if tableSepMatch line then st
          else
            -- Table end: flush, then the current line is emitted as a
            -- paragraph when non-blank (it is not re-classified).
            let st2 := flushTable st
            if (jsTrim line).isEmpty then st2
            else appendBlock st2 (Block.Paragraph (String.mk line))
        else normalClassify st line

/-- Fold `step` over the lines, providing the one-line lookahead. -/
def processLines : ParseState → List (List Char) → ParseState
  | st, [] => st
  | st, l :: rest => processLines (step st l rest.head?) rest

/-- End-of-input flush of an unclosed code block. -/
def finalizeCode (st : ParseState) : ParseState :=
  if st.codeBlockActive then
    appendBlock st (Block.CodeBlock st.codeBlockLines st.codeBlockLanguage)
  else st

/-- End-of-input flush of an unclosed table with at least one header cell
and one data row. -/
def finalizeTable (st : ParseState) : ParseState :=
  if st.tableActive ∧ st.tableHeaderCells ≠ [] ∧ st.tableDataRows ≠ [] then
    appendBlock st (Block.Table st.tableHeaderCells st.tableDataRows)
  else st

/-- The end-of-input flushes: an unclosed code block is emitted, then an
unclosed table. -/
def finalize (st : ParseState) : ParseState :=
  finalizeTable (finalizeCode st)

/-- The block sequence produced by `renderMarkdown(text)`: the empty string
returns no blocks (`if (!text) return null`), otherwise the lines of the
split text are classified in one pass and the open constructs flushed. -/
def renderMarkdown (text : String) : List Block :=
  if text = "" then []
  else (finalize (processLines initState (splitLines text.data))).blocks

/-! ## The display-width calculator `calculateTextWidth`

The source first strips markdown markers with a chain of global regex
replacements, then sums per-character widths using `charCodeAt(0)` (so an
astral code point is measured by its high surrogate, which lies in none of
the wide ranges). -/

/-- Find the first occurrence of the pattern `R` within the newline-free
prefix of `cs`: returns the characters before the occurrence and the
characters after it.  This is the search performed by a lazy `(.*?)`
followed by the literal `R` (the dot does not match a newline). -/
def splitFirstMatch (R : List Char) : List Char → Option (List Char × List Char)
  | [] => if R = [] then some ([], []) else none
  | c :: t =>
    if startsWithL (c :: t) R then some ([], (c :: t).drop R.length)
    else if c = '\n' then none
    else
      match splitFirstMatch R t with
      | some (mid, rest) => some (c :: mid, rest)
      | none => none

/-- One global replacement `s.replace(/L(.*?)R/g, '$1')` for literal
delimiters `L` and `R`: at each position, if `L` matches and a closing `R`
is reachable without a newline, the delimiters are removed and scanning
resumes after the match; otherwise the character is kept.  `fuel` bounds
the recursion (every step consumes at least one character of the input). -/
def stripDelimGo (L R : List Char) : Nat → List Char → List Char
  | 0, cs => cs
  | _ + 1, [] => []
  | fuel + 1, c :: t =>
    if startsWithL (c :: t) L then
      match splitFirstMatch R ((c :: t).drop L.length) with
      | some (mid, rest) => mid ++ stripDelimGo L R fuel rest
      | none => c :: stripDelimGo L R fuel t
    else c :: stripDelimGo L R fuel t

def stripDelim (L R cs : List Char) : List Char :=
  stripDelimGo L R (cs.length + 1) cs

/-- Is there a `)` at index `t ≥ k` of `seg`? -/
def hasParenFrom (seg : List Char) (k : Nat) : Bool :=
  (List.range seg.length).any (fun t => k ≤ t && seg.get? t = some ')')

/-- The lazy completion of a link starting at bracket index `q`: the first
index `r > q` holding `]` immediately followed by `(` with some `)` later
(the lazy label group grows to the next viable `]`). -/
def completionR (seg : List Char) (q : Nat) : Option Nat :=
  (List.range seg.length).find?
    (fun r => q < r && seg.get? r = some ']' && seg.get? (r + 1) = some '(' &&
      hasParenFrom seg (r + 2))

/-- A viable opening bracket for `.*\[(.*?)\]\(.*\)`. -/
def viableQ (seg : List Char) (q : Nat) : Bool :=
  seg.get? q = some '[' && (completionR seg q).isSome

/-- The greedy leading `.*` selects the last viable `[`. -/
def lastViableQ (seg : List Char) : Option Nat :=
  (List.range seg.length).reverse.find? (viableQ seg)

/-- The greedy trailing `.*` selects the last `)` at index `≥ k`. -/
def lastParen (seg : List Char) (k : Nat) : Option Nat :=
  (List.range seg.length).reverse.find? (fun t => k ≤ t && seg.get? t = some ')')

/-- `seg.replace(/.*\[(.*?)\]\(.*\)/g, '$1')` within one newline-free
segment: each match spans from the scan position through the last `)`,
keeping only the label, and scanning resumes after the match. -/
def segLink : Nat → List Char → List Char
  | 0, seg => seg
  | fuel + 1, seg =>
    match lastViableQ seg with
    | none => seg
    | some q =>
      match completionR seg q with
      | none => seg
      | some r =>
        match lastParen seg (r + 2) with
        | none => seg
        | some t =>
          ((seg.drop (q + 1)).take (r - (q + 1))) ++ segLink fuel (seg.drop (t + 1))

/-- The final replacement `/.*\[(.*?)\]\(.*\)/g`: since none of its parts can
cross a newline, it acts independently on each newline-separated segment. -/
def linkCollapse (cs : List Char) : List Char :=
  joinChar '\n' ((splitOnChar '\n' cs).map (fun seg => segLink (seg.length + 1) seg))

/-- The full marker-stripping chain of `calculateTextWidth`, in source order:
bold, star italic, underscore italic, strikethrough, inline code, underline
tag, then the link collapse. -/
def stripForWidth (cs : List Char) : List Char :=
  linkCollapse
    (stripDelim "<u>".data "</u>".data
      (stripDelim "`".data "`".data
        (stripDelim "~~".data "~~".data
          (stripDelim "_".data "_".data
            (stripDelim "*".data "*".data
              (stripDelim "**".data "**".data cs))))))

/-- `char.charCodeAt(0)` of a code point iterated by `for..of`: the code
point itself on the BMP, else the high surrogate. -/
def jsCharCode (c : Char) : Nat :=
  if c.toNat < 0x10000 then c.toNat else 0xD800 + (c.toNat - 0x10000) / 1024

/-- The wide-glyph ranges tested by `calculateTextWidth`. -/
def isWideCode (code : Nat) : Bool :=
  0x1100 ≤ code &&
    (code ≤ 0x115f || code = 0x2329 || code = 0x232a ||
      (0x2e80 ≤ code && code ≤ 0xa4cf && code ≠ 0x303f) ||
      (0xac00 ≤ code && code ≤ 0xd7a3) ||
      (0xf900 ≤ code && code ≤ 0xfaff) ||
      (0xfe10 ≤ code && code ≤ 0xfe1f) ||
      (0xfe30 ≤ code && code ≤ 0xfe6f) ||
      (0xff00 ≤ code && code ≤ 0xff60) ||
      (0xffe0 ≤ code && code ≤ 0xffe6))

def charDisplayWidth (c : Char) : Nat :=
  if isWideCode (jsCharCode c) then 2 else 1

/-- Sum of per-character display widths (2 for wide glyphs, 1 otherwise). -/
def displayWidthSum (cs : List Char) : Nat :=
  (cs.map charDisplayWidth).sum

/-- `calculateTextWidth(content)`: strip the markers, then sum widths. -/
def calculateTextWidth (s : String) : Nat :=
  displayWidthSum (stripForWidth s.data)

/-! ### Spec-side width (for the refinement claim about the calculator) -/

/-- Replace each `[label](url)` by `label`, preserving the surrounding text:
scan left to right; at `[`, take the lazy first `]` directly followed by
`(` and the lazy first `)` after it. -/
def stripLinkKeepGo : Nat → List Char → List Char
  | 0, cs => cs
  | _ + 1, [] => []
  | fuel + 1, c :: t =>
    if c = '[' then
      match splitFirstMatch [']'] t with
      | some (label, rest) =>
        match rest with
        | '(' :: rest2 =>
          match splitFirstMatch [')'] rest2 with
          | some (_, rest3) => label ++ stripLinkKeepGo fuel rest3
          | none => c :: stripLinkKeepGo fuel t
        | _ => c :: stripLinkKeepGo fuel t
      | none => c :: stripLinkKeepGo fuel t
    else c :: stripLinkKeepGo fuel t

/-- Modelled from the spec: "the same markers stripped by the tokenizer
(bold/italic/strike/code/underline, link reduced to its label) must be
removed first" — the marker wrappers are removed and each link contributes
exactly its label, with all surrounding text preserved. -/
def specDisplayWidth (s : String) : Nat :=
  displayWidthSum
    (stripLinkKeepGo (s.data.length + 1)
      (stripDelim "<u>".data "</u>".data
        (stripDelim "`".data "`".data
          (stripDelim "~~".data "~~".data
            (stripDelim "_".data "_".data
              (stripDelim "*".data "*".data
                (stripDelim "**".data "**".data s.data)))))))

/-! ## The table layout engine (`BuildTableInternal`) -/

/-- `widthPerColumn`: per column, the larger of the header's display width
and the widest data cell (`Math.max(0, ...)` over possibly missing cells),
plus 2 padding columns. -/
def widthPerColumn (columnHeaders : List String) (dataRows : List (List String)) :
    List Nat :=
  columnHeaders.enum.map (fun p =>
    let headerDisplayWidth := calculateTextWidth p.2
    let maxDataWidth :=
      (dataRows.map (fun rowData => calculateTextWidth (rowData.getD p.1 ""))).foldl
        max 0
    max headerDisplayWidth maxDataWidth + 2)

/-- `totalRequiredWidth = widthPerColumn.reduce((sum, w) => sum + w + 1, 1)`. -/
def totalRequiredWidth (ws : List Nat) : Nat :=
  ws.foldl (fun sum w => sum + w + 1) 1

/-- `shrinkRatio` and `finalWidths`, with the JS floating-point division and
multiplication abstracted to exact rational arithmetic. -/
def shrinkRatio (required maxWidth : Nat) : ℚ :=
  if maxWidth < required then (maxWidth : ℚ) / (required : ℚ) else 1

def finalWidths (columnHeaders : List String) (dataRows : List (List String))
    (maxWidth : Nat) : List Nat :=
  let ws := widthPerColumn columnHeaders dataRows
  let ratio := shrinkRatio (totalRequiredWidth ws) maxWidth
  ws.map (fun w : Nat => (⌊(w : ℚ) * ratio⌋).toNat)

/-- The spec's proportional target for a column: "desired width scaled by
available/required, floored". -/
def specProportionalTarget (desired maxWidth required : Nat) : Nat :=
  (⌊(desired : ℚ) * (maxWidth : ℚ) / (required : ℚ)⌋).toNat

/-- `cellText.substring(0, k)` counts UTF-16 code units: a BMP code point is
one unit, an astral code point two.  When the budget splits a surrogate
pair, JS keeps a lone high surrogate; it is represented here by U+FFFD,
which like a lone surrogate has display width 1 and matches no marker. -/
def jsSubstringUnits : Nat → List Char → List Char
  | _, [] => []
  | 0, _ :: _ => []
  | k + 1, c :: t =>
    if c.toNat < 0x10000 then c :: jsSubstringUnits k t
    else if 1 ≤ k then c :: jsSubstringUnits (k - 1) t
    else ['�']

/-- The text rendered by `buildCell` (before padding): when the measured
width exceeds the inner width `cellWidth - 2`, the cell is truncated to
`max(0, innerWidth - 3)` code units and an ASCII ellipsis is appended. -/
def buildCellText (cellText : String) (cellWidth : Nat) : String :=
  let availableWidth := cellWidth - 2
  let actualWidth := calculateTextWidth cellText
  if availableWidth < actualWidth then
    String.mk (jsSubstringUnits (availableWidth - 3) cellText.data ++ "...".data)
  else cellText

/-! ## The horizontal-rule renderer -/

/-- The rule text `'─'.repeat(Math.min(40, terminalWidth - 4))`, with the
signed subtraction kept: JS `String.prototype.repeat` throws a `RangeError`
on a negative count, modelled as `none`. -/
def buildHorizontalRuleText (terminalWidth : Int) : Option (List Char) :=
  let count : Int := min 40 (terminalWidth - 4)
  if count < 0 then none else some (List.replicate count.toNat '─')

/-! ## The inline tokenizer (`ProcessInlineText`)

The scanning regex
`(\*\*.*?\*\*|\*.*?\*|_.*?_|~~.*?~~|\[.*?\]\(.*?\)|` + "`+.+?`+" + `|<u>.*?<\/u>|https?:\/\/\S+)/g`
is modelled by one match-length function per alternative (each computing the
length matched at the head of a suffix under the pattern's greedy/lazy
semantics), combined in alternation order at the leftmost matching
position. -/

inductive Span where
  | Plain (text : String)
  | Bold (text : String)
  | Italic (text : String)
  | Strike (text : String)
  | Code (text : String)
  | Link (label url : String)
  | Underline (text : String)
  | AutoLink (url : String)
deriving DecidableEq

/-- Length matched by `L.*?R` (lazy middle, no newline) at the head. -/
def delimLen (L R cs : List Char) : Option Nat :=
  if startsWithL cs L then
    match splitFirstMatch R (cs.drop L.length) with
    | some (mid, _) => some (L.length + mid.length + R.length)
    | none => none
  else none

/-- Length matched by `\[.*?\]\(.*?\)` at the head: the lazy label grows to
successive `]` candidates until one is directly followed by `(` with a
reachable `)`. -/
def linkAfterBracket : Nat → List Char → Option Nat
  | 0, _ => none
  | fuel + 1, cs =>
    match splitFirstMatch [']'] cs with
    | none => none
    | some (mid, rest) =>
      match rest with
      | '(' :: rest2 =>
        match splitFirstMatch [')'] rest2 with
        | some (mid2, _) => some (mid.length + 1 + 1 + mid2.length + 1)
        | none =>
          match linkAfterBracket fuel rest with
          | some n => some (mid.length + 1 + n)
          | none => none
      | _ =>
        match linkAfterBracket fuel rest with
        | some n => some (mid.length + 1 + n)
        | none => none

def linkLen (cs : List Char) : Option Nat :=
  match cs with
  | '[' :: t =>
    match linkAfterBracket (t.length + 1) t with
    | some n => some (1 + n)
    | none => none
  | _ => none

/-- Length matched by `` `+.+?`+ `` at the head: the greedy opener takes the
whole leading backtick run (shorter openers never succeed earlier), the lazy
middle runs to the next backtick in the newline-free region, and the greedy
closer takes the whole run found there. -/
def codeLen (cs : List Char) : Option Nat :=
  let n := (cs.takeWhile (· = '`')).length
  if n = 0 then none
  else
    let rest := cs.drop n
    match splitFirstMatch ['`'] rest with
    | some (mid, after) =>
      if mid = [] then none
      else some (n + mid.length + 1 + (after.takeWhile (· = '`')).length)
    | none => none

/-- Length matched by `https?:\/\/\S+` at the head. -/
def urlTail (cs : List Char) (k : Nat) : Option Nat :=
  let r := cs.drop k
  if startsWithL r "://".data then
    let run := (r.drop 3).takeWhile (fun c => !jsWs c)
    if 1 ≤ run.length then some (k + 3 + run.length) else none
  else none

def urlLen (cs : List Char) : Option Nat :=
  if startsWithL cs "http".data then
    if (cs.drop 4).head? = some 's' then
      match urlTail cs 5 with
      | some n => some n
      | none => urlTail cs 4
    else urlTail cs 4
  else none

/-- The alternation, in the order of the source pattern. -/
def altMatchLen (cs : List Char) : Option Nat :=
  (delimLen "**".data "**".data cs).orElse fun _ =>
  (delimLen "*".data "*".data cs).orElse fun _ =>
  (delimLen "_".data "_".data cs).orElse fun _ =>
  (delimLen "~~".data "~~".data cs).orElse fun _ =>
  (linkLen cs).orElse fun _ =>
  (codeLen cs).orElse fun _ =>
  (delimLen "<u>".data "</u>".data cs).orElse fun _ =>
  urlLen cs

/-- The leftmost match at position `≥ pos`: start and end positions. -/
def findFrom (content : List Char) : Nat → Nat → Option (Nat × Nat)
  | 0, _ => none
  | fuel + 1, pos =>
    if content.length ≤ pos then none
    else
      match altMatchLen (content.drop pos) with
      | some l => some (pos, pos + l)
      | none => findFrom content fuel (pos + 1)

/-- The backreference regex `/^(`+)(.+?)\1$/s` applied to a matched code
candidate: the greedy opener backtracks from the full leading run until the
trailing `n` characters are the same run, with a nonempty body between. -/
def codeInnerFrom : Nat → List Char → Option (List Char)
  | 0, _ => none
  | n + 1, m =>
    if startsWithL m (List.replicate (n + 1) '`') ∧
        endsWithL m (List.replicate (n + 1) '`') ∧ 2 * (n + 1) + 1 ≤ m.length then
      some ((m.drop (n + 1)).take (m.length - 2 * (n + 1)))
    else codeInnerFrom n m

def codeInner (m : List Char) : Option (List Char) :=
  codeInnerFrom (m.takeWhile (· = '`')).length m

/-- The capture groups of `/\[(.*?)\]\((.*?)\)/` on a matched link text. -/
def linkParts (m : List Char) : Option (List Char × List Char) :=
  match m with
  | '[' :: t =>
    match splitFirstMatch [']'] t with
    | some (label, rest) =>
      match rest with
      | '(' :: rest2 =>
        match splitFirstMatch [')'] rest2 with
        | some (url, _) => some (label, url)
        | none => none
      | _ => none
    | none => none
  | _ => none

/-- The `if`-chain that styles one matched text `m` spanning positions
`[s, e)` of `content`; an unmatched branch (or a failed italic context
check) falls back to plain text with the markers kept. -/
def classifyMatch (content : List Char) (s : Nat) (m : List Char) (e : Nat) : Span :=
  if startsWithL m "**".data ∧ endsWithL m "**".data ∧ 4 < m.length then
    Span.Bold (String.mk ((m.drop 2).take (m.length - 4)))
  else if 2 < m.length ∧
      ((m.head? = some '*' ∧ m.getLast? = some '*') ∨
       (m.head? = some '_' ∧ m.getLast? = some '_')) then
    -- Context check: reject italic when a word character directly precedes
    -- the opener or directly follows the closer.
    let prevOk := match s with
      | 0 => true
      | p + 1 => match content.get? p with
        | some c => !wordChar c
        | none => true
    let nextOk := match content.get? e with
      | some c => !wordChar c
      | none => true
    if prevOk && nextOk then Span.Italic (String.mk ((m.drop 1).take (m.length - 2)))
    else Span.Plain (String.mk m)
  else if startsWithL m "~~".data ∧ endsWithL m "~~".data ∧ 4 < m.length then
    Span.Strike (String.mk ((m.drop 2).take (m.length - 4)))
  else if m.head? = some '`' ∧ m.getLast? = some '`' ∧ 1 < m.length then
    match codeInner m with
    | some inner => Span.Code (String.mk inner)
    | none => Span.Plain (String.mk m)
  else if m.head? = some '[' ∧ m.getLast? = some ')' ∧
      (List.range m.length).any (fun i =>
        (m.drop i).head? = some ']' ∧ (m.drop (i + 1)).head? = some '(') then
    match linkParts m with
    | some (label, url) => Span.Link (String.mk label) (String.mk url)
    | none => Span.Plain (String.mk m)
  else if startsWithL m "<u>".data ∧ endsWithL m "</u>".data then
    Span.Underline (String.mk ((m.drop 3).take (m.length - 7)))
  else if startsWithL m "http://".data ∨ startsWithL m "https://".data then
    Span.AutoLink (String.mk m)
  else Span.Plain (String.mk m)

/-- The `while ((matchResult = patternRegex.exec(content)) !== null)` loop:
plain gaps between matches, each match classified, the tail appended. -/
def inlineLoop (content : List Char) : Nat → Nat → List Span
  | 0, _ => []
  | fuel + 1, pos =>
    match findFrom content (content.length + 1) pos with
    | none =>
      if pos < content.length then [Span.Plain (String.mk (content.drop pos))] else []
    | some (s, e) =>
      let gap :=
        if pos < s then [Span.Plain (String.mk ((content.drop pos).take (s - pos)))]
        else []
      let m := (content.drop s).take (e - s)
      gap ++ classifyMatch content s m e :: inlineLoop content fuel e

/-- The characters of the fast-path test `/[*_~`<[https?:]/`. -/
def triggerChar (c : Char) : Bool :=
  c = '*' || c = '_' || c = '~' || c = '`' || c = '<' || c = '[' ||
  c = 'h' || c = 't' || c = 'p' || c = 's' || c = '?' || c = ':'

/-- `ProcessInlineText`: fast path for trigger-free text (a single plain
span), otherwise the scanning loop. -/
def processInlineText (content : String) : List Span :=
  if content.data.any triggerChar then inlineLoop content.data (content.data.length + 1) 0
  else [Span.Plain content]

/-- A concrete `InTable` parser state (header cells A, B and one collected
data row) used to instantiate the table-state theorems. -/
def sampleTableState : ParseState :=
  { blocks := [], previousLineWasEmpty := true, codeBlockActive := false,
    codeBlockLines := [], codeBlockLanguage := none, codeBlockFence := [],
    tableActive := true, tableHeaderCells := ["A", "B"],
    tableDataRows := [["1", "2"]] }

/-- Is a block a `Table`? -/
def isTableBlock : Block → Bool
  | .Table _ _ => true
  | _ => false

/-- Is a block a `CodeBlock`? -/
def isCodeBlockB : Block → Bool
  | .CodeBlock _ _ => true
  | _ => false

/-- Characters that trigger none of the marker-stripping patterns of
`calculateTextWidth` (each pattern's opener and closer start with one of
the excluded characters, and the lazy/greedy groups cannot cross a
newline). -/
def plainChar (c : Char) : Bool :=
  !(c = '*' || c = '_' || c = '~' || c = '`' || c = '<' || c = '[' || c = '\n')

/-- Is a block the blank-line `Spacer`? -/
def isSpacer : Block → Bool
  | Block.Spacer => true
  | _ => false

/-- The emitted block sequence does not begin with a `Spacer`. -/
def noLeadingSpacer : List Block → Bool
  | [] => true
  | b :: _ => !isSpacer b

/-- No two adjacent `Spacer`s in the block sequence. -/
def noAdjacentSpacers : List Block → Bool
  | [] => true
  | [_] => true
  | a :: b :: t => !(isSpacer a && isSpacer b) && noAdjacentSpacers (b :: t)

/-- The spacer-collapsing invariant carried by the `renderMarkdown` loop:
the emitted blocks never start with a `Spacer` nor contain two adjacent
`Spacer`s, and whenever the blank-line flag is `false` a block has been
emitted and the last one is not a `Spacer` (the flag starts `true` and only
`appendBlock` of a non-`Spacer` block resets it to `false`). -/
def spacerInv (st : ParseState) : Prop :=
  noLeadingSpacer st.blocks = true ∧ noAdjacentSpacers st.blocks = true ∧
  (st.previousLineWasEmpty = false →
    st.blocks ≠ [] ∧ st.blocks.getLast? ≠ some Block.Spacer)

/-! # Helper lemmas -/

theorem splitLines_ne_nil (cs : List Char) : splitLines cs ≠ [] := by
  induction cs using splitLines.induct <;> simp_all [splitLines]

theorem splitLines_cons (c : Char) (t : List Char) (hc : c ≠ '\n') (hcr : c ≠ '\r') :
    splitLines (c :: t) =
      match splitLines t with
      | [] => [[c]]
      | l :: ls => (c :: l) :: ls := by
  conv_lhs => rw [splitLines.eq_def]
  split
  · simp_all
  · rename_i h; rw [List.cons.injEq] at h; exact absurd h.1 hcr
  · rename_i h; rw [List.cons.injEq] at h; exact absurd h.1 hc
  · rename_i heq; rw [List.cons.injEq] at heq; rw [heq.1, heq.2]

theorem splitLines_newline_cons (t : List Char) :
    splitLines ('\n' :: t) = [] :: splitLines t := by
  rfl

theorem splitLines_no_newline (l : List Char) (hn : '\n' ∉ l) (hr : '\r' ∉ l) :
    splitLines l = [l] := by
  induction l with
  | nil => rfl
  | cons c t ih =>
    simp only [List.mem_cons, not_or] at hn hr
    rw [splitLines_cons c t (fun h => hn.1 h.symm) (fun h => hr.1 h.symm),
      ih hn.2 hr.2]

theorem splitLines_append (l rest : List Char) (hn : '\n' ∉ l) (hr : '\r' ∉ l) :
    splitLines (l ++ '\n' :: rest) = l :: splitLines rest := by
  induction l with
  | nil => simp [splitLines_newline_cons]
  | cons c t ih =>
    simp only [List.mem_cons, not_or] at hn hr
    rw [List.cons_append,
      splitLines_cons c _ (fun h => hn.1 h.symm) (fun h => hr.1 h.symm),
      ih hn.2 hr.2]

theorem splitLines_joinLines (ls : List (List Char))
    (h : ∀ l ∈ ls, '\n' ∉ l ∧ '\r' ∉ l) (hne : ls ≠ []) :
    splitLines (joinLines ls) = ls := by
  induction ls with
  | nil => exact absurd rfl hne
  | cons l ls ih =>
    cases ls with
    | nil =>
      have := h l (by simp)
      exact splitLines_no_newline l this.1 this.2
    | cons l2 ls2 =>
      have hl := h l (by simp)
      have hrest : ∀ x ∈ l2 :: ls2, '\n' ∉ x ∧ '\r' ∉ x := by
        intro x hx; exact h x (List.mem_cons_of_mem _ hx)
      show splitLines (l ++ '\n' :: joinChar '\n' (l2 :: ls2)) = _
      rw [splitLines_append l _ hl.1 hl.2]
      rw [show joinChar '\n' (l2 :: ls2) = joinLines (l2 :: ls2) from rfl,
        ih hrest (by simp)]

theorem splitOnChar_ne_nil (sep : Char) (cs : List Char) : splitOnChar sep cs ≠ [] := by
  induction cs with
  | nil => simp [splitOnChar]
  | cons c t ih =>
    rw [splitOnChar]
    split
    · simp
    · split <;> simp

theorem joinChar_splitOnChar (sep : Char) (cs : List Char) :
    joinChar sep (splitOnChar sep cs) = cs := by
  induction cs with
  | nil => rfl
  | cons c t ih =>
    rw [splitOnChar]
    cases h : splitOnChar sep t with
    | nil => exact absurd h (splitOnChar_ne_nil sep t)
    | cons l ls =>
      rw [h] at ih
      simp only [h]
      by_cases hc : c = sep
      · rw [if_pos hc, hc]
        show sep :: joinChar sep (l :: ls) = sep :: t
        rw [ih]
      · rw [if_neg hc]
        cases ls with
        | nil =>
          show c :: l = c :: t
          simp only [joinChar] at ih
          rw [ih]
        | cons l2 ls2 =>
          show (c :: l) ++ sep :: joinChar sep (l2 :: ls2) = c :: t
          simp only [joinChar] at ih
          rw [List.cons_append, ih]

theorem mem_joinChar (sep : Char) (ls : List (List Char)) (seg : List Char) (a : Char)
    (hseg : seg ∈ ls) (ha : a ∈ seg) : a ∈ joinChar sep ls := by
  induction ls with
  | nil => exact absurd hseg (List.not_mem_nil seg)
  | cons l ls ih =>
    cases ls with
    | nil =>
      rw [List.mem_singleton] at hseg
      show a ∈ l
      exact hseg ▸ ha
    | cons l2 ls2 =>
      show a ∈ l ++ sep :: joinChar sep (l2 :: ls2)
      rcases List.mem_cons.mp hseg with h1 | h1
      · exact List.mem_append_left _ (h1 ▸ ha)
      · exact List.mem_append_right _ (List.mem_cons_of_mem sep (ih h1))

theorem mem_of_mem_splitOnChar (sep : Char) (cs seg : List Char) (a : Char)
    (hseg : seg ∈ splitOnChar sep cs) (ha : a ∈ seg) : a ∈ cs := by
  have h := mem_joinChar sep (splitOnChar sep cs) seg a hseg ha
  rwa [joinChar_splitOnChar] at h

theorem splitOnChar_no_sep (sep : Char) (cs : List Char) (h : sep ∉ cs) :
    splitOnChar sep cs = [cs] := by
  induction cs with
  | nil => rfl
  | cons c t ih =>
    simp only [List.mem_cons, not_or] at h
    rw [splitOnChar]
    simp only [ih h.2]
    rw [if_neg (fun hc => h.1 hc.symm)]

theorem appendBlock_blocks (st : ParseState) (b : Block) :
    (appendBlock st b).blocks = st.blocks ++ [b] := rfl

theorem pushSpacer_blocks (st : ParseState) :
    ∃ app, (pushSpacer st).blocks = st.blocks ++ app := by
  unfold pushSpacer
  split
  · exact ⟨[], by simp⟩
  · exact ⟨[Block.Spacer], rfl⟩

theorem flushTable_blocks (st : ParseState) :
    ∃ app, (flushTable st).blocks = st.blocks ++ app := by
  unfold flushTable
  split
  · exact ⟨_, rfl⟩
  · exact ⟨[], by simp⟩

theorem normalClassify_blocks (st : ParseState) (line : List Char) :
    ∃ app, (normalClassify st line).blocks = st.blocks ++ app := by
  unfold normalClassify
  split
  · exact ⟨_, rfl⟩
  split
  · exact ⟨_, rfl⟩
  split
  · exact ⟨_, rfl⟩
  split
  · exact ⟨_, rfl⟩
  split
  · exact pushSpacer_blocks st
  · exact ⟨_, rfl⟩

theorem step_blocks (st : ParseState) (line : List Char) (next? : Option (List Char)) :
    ∃ app, (step st line next?).blocks = st.blocks ++ app := by
  unfold step
  split
  · split
    · exact ⟨_, rfl⟩
    · exact ⟨[], by simp [bufferCode]⟩
  split
  · exact ⟨[], by simp⟩
  split
  · split
    · split
      · exact ⟨[], by simp⟩
      · exact ⟨[], by simp⟩
    · split
      · split
        · exact ⟨[], by simp⟩
        · exact ⟨_, rfl⟩
      · exact ⟨_, rfl⟩
  · split
    · split
      · exact ⟨[], by simp⟩
      · split
        · exact flushTable_blocks st
        · obtain ⟨app, happ⟩ := flushTable_blocks st
          exact ⟨app ++ [Block.Paragraph (String.mk line)],
            by rw [appendBlock_blocks, happ, List.append_assoc]⟩
    · exact normalClassify_blocks st line

theorem processLines_blocks (ls : List (List Char)) (st : ParseState) :
    ∃ app, (processLines st ls).blocks = st.blocks ++ app := by
  induction ls generalizing st with
  | nil => exact ⟨[], by simp [processLines]⟩
  | cons l rest ih =>
    obtain ⟨a1, h1⟩ := step_blocks st l rest.head?
    obtain ⟨a2, h2⟩ := ih (step st l rest.head?)
    exact ⟨a1 ++ a2, by rw [processLines, h2, h1, List.append_assoc]⟩

theorem finalizeCode_blocks (st : ParseState) :
    ∃ app, (finalizeCode st).blocks = st.blocks ++ app := by
  unfold finalizeCode
  split
  · exact ⟨_, rfl⟩
  · exact ⟨[], by simp⟩

theorem finalizeTable_blocks (st : ParseState) :
    ∃ app, (finalizeTable st).blocks = st.blocks ++ app := by
  unfold finalizeTable
  split
  · exact ⟨_, rfl⟩
  · exact ⟨[], by simp⟩

theorem finalize_blocks (st : ParseState) :
    ∃ app, (finalize st).blocks = st.blocks ++ app := by
  obtain ⟨a1, h1⟩ := finalizeCode_blocks st
  obtain ⟨a2, h2⟩ := finalizeTable_blocks (finalizeCode st)
  exact ⟨a1 ++ a2, by rw [finalize, h2, h1, List.append_assoc]⟩

/-! ### Blank lines match none of the line patterns -/

theorem jsWs_cases (c : Char) (h : jsWs c = true) :
    c = ' ' ∨ c = '\t' ∨ c = '\n' ∨ c = '\r' ∨
    c = '\x0b' ∨ c = '\x0c' ∨ c = '\u00A0' ∨ c = '\uFEFF' := by
  have h2 := h
  unfold jsWs at h2
  simp only [Bool.or_eq_true, decide_eq_true_eq] at h2
  tauto

theorem all_ws_iff_trim_empty (b : List Char) :
    (∀ c ∈ b, jsWs c = true) ↔ (jsTrim b).isEmpty = true := by
  constructor
  · intro h
    have hd : b.dropWhile jsWs = [] :=
      List.dropWhile_eq_nil_iff.mpr (fun c hc => by simp [h c hc])
    simp [jsTrim, hd]
  · intro h
    rw [List.isEmpty_iff] at h
    have h2 : (b.dropWhile jsWs).reverse.dropWhile jsWs = [] := by
      rcases List.eq_nil_or_concat ((b.dropWhile jsWs).reverse.dropWhile jsWs) with
        he | ⟨l2, a, ha⟩
      · exact he
      · rw [jsTrim, ha] at h; simp at h
    have h3 : ∀ c ∈ b.dropWhile jsWs, jsWs c = true := by
      intro c hc
      have := List.dropWhile_eq_nil_iff.mp h2 c (List.mem_reverse.mpr hc)
      simpa using this
    intro c hc
    rw [← List.takeWhile_append_dropWhile (p := jsWs) (l := b)] at hc
    rcases List.mem_append.mp hc with h4 | h4
    · exact List.mem_takeWhile_imp h4
    · exact h3 c h4

theorem ws_mem_dropWhile_spaces {p : Char → Bool} (b : List Char)
    (h : ∀ c ∈ b, jsWs c = true) (c : Char) (hc : c ∈ b.dropWhile p) :
    jsWs c = true :=
  h c ((List.dropWhile_sublist p).subset hc)

theorem fenceMatch_ws (b : List Char) (h : ∀ c ∈ b, jsWs c = true) :
    fenceMatch b = none := by
  cases hl : b.dropWhile (· = ' ') with
  | nil => simp [fenceMatch, hl]
  | cons c t =>
    have hmem : c ∈ b.dropWhile (· = ' ') := by
      rw [hl]; exact List.mem_cons_self c t
    have hw : jsWs c = true := ws_mem_dropWhile_spaces b h c hmem
    have hne : ¬(c = '`' ∨ c = '~') := by
      rcases jsWs_cases c hw with rfl | rfl | rfl | rfl | rfl | rfl | rfl | rfl <;> decide
    simp [fenceMatch, hl, hne]

theorem headerMatch_ws (b : List Char) (h : ∀ c ∈ b, jsWs c = true) :
    headerMatch b = none := by
  cases hl : b.dropWhile (· = ' ') with
  | nil => simp [headerMatch, hl]
  | cons c t =>
    have hmem : c ∈ b.dropWhile (· = ' ') := by
      rw [hl]; exact List.mem_cons_self c t
    have hw : jsWs c = true := ws_mem_dropWhile_spaces b h c hmem
    have hne : ¬(c = '#') := by
      rcases jsWs_cases c hw with rfl | rfl | rfl | rfl | rfl | rfl | rfl | rfl <;> decide
    simp [headerMatch, hl, List.takeWhile_cons, hne]

theorem hrMatch_ws (b : List Char) (h : ∀ c ∈ b, jsWs c = true) :
    hrMatch b = false := by
  have hf : b.filter (fun c => c = '-' || c = '*' || c = '_') = [] := by
    rw [List.filter_eq_nil_iff]
    intro c hc
    rcases jsWs_cases c (h c hc) with rfl | rfl | rfl | rfl | rfl | rfl | rfl | rfl <;> decide
  simp [hrMatch, hf]

theorem ulMatch_ws (b : List Char) (h : ∀ c ∈ b, jsWs c = true) :
    ulMatch b = none := by
  cases hl : b.dropWhile (fun c => c = ' ' || c = '\t') with
  | nil => simp [ulMatch, hl]
  | cons m r =>
    have hmem : m ∈ b.dropWhile (fun c => c = ' ' || c = '\t') := by
      rw [hl]; exact List.mem_cons_self m r
    have hw : jsWs m = true := ws_mem_dropWhile_spaces b h m hmem
    have hne : ¬(m = '-' ∨ m = '*' ∨ m = '+') := by
      rcases jsWs_cases m hw with rfl | rfl | rfl | rfl | rfl | rfl | rfl | rfl <;> decide
    simp [ulMatch, hl, hne]

theorem olMatch_ws (b : List Char) (h : ∀ c ∈ b, jsWs c = true) :
    olMatch b = none := by
  cases hl : b.dropWhile (fun c => c = ' ' || c = '\t') with
  | nil => simp [olMatch, hl]
  | cons m r =>
    have hmem : m ∈ b.dropWhile (fun c => c = ' ' || c = '\t') := by
      rw [hl]; exact List.mem_cons_self m r
    have hw : jsWs m = true := ws_mem_dropWhile_spaces b h m hmem
    have hnd : ('0' ≤ m && m ≤ '9') = false := by
      rcases jsWs_cases m hw with rfl | rfl | rfl | rfl | rfl | rfl | rfl | rfl <;> decide
    have hne : ¬(m = '.') := by
      rcases jsWs_cases m hw with rfl | rfl | rfl | rfl | rfl | rfl | rfl | rfl <;> decide
    have hAfter : (m :: r).dropWhile (fun c => '0' ≤ c && c ≤ '9') = m :: r := by
      rw [List.dropWhile_cons]
      simp [hnd]
    simp only [olMatch, hl, hAfter]
    split
    · rename_i heq
      rw [List.cons.injEq] at heq
      exact absurd heq.1 hne
    · rfl

theorem tableRowMatch_ws (b : List Char) (h : ∀ c ∈ b, jsWs c = true) :
    tableRowMatch b = none := by
  have hd : b.dropWhile jsWs = [] :=
    List.dropWhile_eq_nil_iff.mpr (fun c hc => by simp [h c hc])
  simp [tableRowMatch, hd]

theorem tableSepMatch_ws (b : List Char) (h : ∀ c ∈ b, jsWs c = true) :
    tableSepMatch b = false := by
  have hp : '|' ∉ b := by
    intro hc
    rcases jsWs_cases '|' (h '|' hc) with h1 | h1 | h1 | h1 | h1 | h1 | h1 | h1 <;>
      exact absurd h1 (by decide)
  simp [tableSepMatch, splitOnChar_no_sep '|' b hp]

/-! ### Branch-evaluation lemmas for `step` -/

theorem step_table_end (st : ParseState) (line : List Char) (next? : Option (List Char))
    (hca : st.codeBlockActive = false) (hta : st.tableActive = true)
    (hf : fenceMatch line = none) (hrow : tableRowMatch line = none)
    (hsep : tableSepMatch line = false) :
    step st line next? =
      if (jsTrim line).isEmpty then flushTable st
      else appendBlock (flushTable st) (Block.Paragraph (String.mk line)) := by
  simp only [step, hca, hta, hf, hrow, hsep, Bool.false_eq_true, if_false, if_true]

theorem flushTable_of_nonempty (st : ParseState)
    (hh : st.tableHeaderCells ≠ []) (hr : st.tableDataRows ≠ []) :
    flushTable st =
      { st with blocks := st.blocks ++ [Block.Table st.tableHeaderCells st.tableDataRows],
                previousLineWasEmpty := false, tableActive := false,
                tableHeaderCells := [], tableDataRows := [] } := by
  unfold flushTable
  rw [if_pos ⟨hh, hr⟩]
  rfl

theorem pushSpacer_of_not_empty (st : ParseState) (h : st.previousLineWasEmpty = false) :
    pushSpacer st =
      { st with blocks := st.blocks ++ [Block.Spacer], previousLineWasEmpty := true } := by
  unfold pushSpacer
  rw [h]
  simp

theorem normalClassify_ws (st : ParseState) (line : List Char)
    (hws : ∀ c ∈ line, jsWs c = true) :
    normalClassify st line = pushSpacer st := by
  unfold normalClassify
  simp only [hrMatch_ws line hws, headerMatch_ws line hws, ulMatch_ws line hws,
    olMatch_ws line hws, (all_ws_iff_trim_empty line).mp hws,
    Bool.false_eq_true, if_false, if_true]

theorem step_ws_normal (st : ParseState) (line : List Char) (next? : Option (List Char))
    (hca : st.codeBlockActive = false) (hta : st.tableActive = false)
    (hws : ∀ c ∈ line, jsWs c = true) :
    step st line next? = pushSpacer st := by
  simp only [step, hca, hta, fenceMatch_ws line hws, tableRowMatch_ws line hws,
    Bool.false_eq_true, if_false]
  exact normalClassify_ws st line hws

/-! # Claims -/

/-- C5: the end-to-end example.  The input
`"# Title\n\nSome **bold** and _em_ text.\n\n| A | B |\n| - | - |\n| 1 | 2 |\n"`
yields, in order, `Header(1,"Title")`, `Spacer`, a `Paragraph` whose span
sequence is `[Plain "Some ", Bold "bold", Plain " and ", Italic "em",
Plain " text."]`, `Spacer`, and `Table(["A","B"], [["1","2"]])` (the block
classification is width-independent, so this holds in particular at
width 80). -/
theorem c5_end_to_end_example :
    renderMarkdown "# Title\n\nSome **bold** and _em_ text.\n\n| A | B |\n| - | - |\n| 1 | 2 |\n" =
      [Block.Header 1 "Title", Block.Spacer,
       Block.Paragraph "Some **bold** and _em_ text.", Block.Spacer,
       Block.Table ["A", "B"] [["1", "2"]]] ∧
    processInlineText "Some **bold** and _em_ text." =
      [Span.Plain "Some ", Span.Bold "bold", Span.Plain " and ",
       Span.Italic "em", Span.Plain " text."] := by
  decide

/-- C4 (failing input): the rule text is `'─'.repeat(Math.min(40, width - 4))`;
for the horizontal-rule input `"---"` the block is produced, but at width 3
the repeat count `min(40, 3 - 4) = -1` is negative, where JavaScript
`String.prototype.repeat` throws a `RangeError` — so rendering does not
return normally for every positive width.  At widths `≥ 4` the count is the
claimed `min(40, width - 4)`. -/
theorem c4_hr_negative_repeat :
    renderMarkdown "---" = [Block.HorizontalRule] ∧
    buildHorizontalRuleText 3 = none ∧
    buildHorizontalRuleText 4 = some [] ∧
    buildHorizontalRuleText 80 = some (List.replicate 40 '─') := by
  refine ⟨by decide, by decide, by decide, ?_⟩
  decide

/-- C1 (counterexample): after table data rows, the ATX header line `"# H"`
(which `headerMatch` accepts) is emitted as a `Paragraph`, not a `Header`:
the line that closes a table is not re-classified under the Normal-state
priority rules. -/
theorem c1_counterexample :
    headerMatch "# H".data = some (1, "H".data) ∧
    renderMarkdown "| A | B |\n| - | - |\n| 1 | 2 |\n# H" =
      [Block.Table ["A", "B"] [["1", "2"]], Block.Paragraph "# H"] ∧
    Block.Paragraph "# H" ≠ Block.Header 1 "H" := by
  decide

/-- C2 (counterexample): when table header and data rows precede a code
fence, the `CodeBlock` is emitted before the `Table` (the fence branch does
not flush the open table), so blocks are not in source order. -/
theorem c2_counterexample :
    renderMarkdown "| A | B |\n| - | - |\n| 1 | 2 |\n```\ncode\n```" =
      [Block.CodeBlock ["code"] none, Block.Table ["A", "B"] [["1", "2"]]] ∧
    (renderMarkdown "| A | B |\n| - | - |\n| 1 | 2 |\n```\ncode\n```").findIdx isCodeBlockB <
      (renderMarkdown "| A | B |\n| - | - |\n| 1 | 2 |\n```\ncode\n```").findIdx isTableBlock := by
  decide

/-- C6 (counterexample): the rendered cell text can exceed the column's
inner width: with inner width `4 - 2 = 2` the cell `"abc"` renders as
`"..."` of display width 3, and with inner width `10 - 2 = 8` the wide-glyph
cell renders at display width 13 (truncation counts code units, not display
columns). -/
theorem c6_counterexample :
    buildCellText "abc" 4 = "..." ∧ calculateTextWidth (buildCellText "abc" 4) = 3 ∧
    calculateTextWidth (buildCellText "가가가가가가" 10) = 13 := by
  decide

/-- C7 (counterexample): the final replacement `/.*\[(.*?)\]\(.*\)/g` also
consumes the text before the link, so `"xx [a](u)"` measures 1 while the
claim's marker-stripped sum (link reduced to its label, surroundings kept)
is 4. -/
theorem c7_counterexample :
    calculateTextWidth "xx [a](u)" = 1 ∧ specDisplayWidth "xx [a](u)" = 4 := by
  decide

/-- C1 (amended): in the `InTable` state, a line that is neither a data row,
nor a separator line, nor a code fence flushes the accumulated table
(`flushTable` drops it when no data rows were collected) and is then emitted
as a `Paragraph` when non-blank, or consumed without emitting any block when
blank — it is never re-classified under the Normal-state priority rules. -/
theorem c1_table_end_emits_paragraph (st : ParseState) (line : List Char)
    (next? : Option (List Char))
    (hca : st.codeBlockActive = false) (hta : st.tableActive = true)
    (hf : fenceMatch line = none) (hrow : tableRowMatch line = none)
    (hsep : tableSepMatch line = false) :
    step st line next? =
      if (jsTrim line).isEmpty then flushTable st
      else appendBlock (flushTable st) (Block.Paragraph (String.mk line)) :=
  step_table_end st line next? hca hta hf hrow hsep

/-- Witness for C1 (amended) at a concrete table state and the header line
`"# H"`: the flushed table is followed by a `Paragraph`, not a `Header`. -/
theorem c1_table_end_emits_paragraph_witness :
    (step sampleTableState "# H".data none).blocks =
      [Block.Table ["A", "B"] [["1", "2"]], Block.Paragraph "# H"] := by
  rw [c1_table_end_emits_paragraph sampleTableState "# H".data none rfl rfl (by decide)
    (by decide) (by decide)]
  decide

/-- C10: a blank line that terminates an open table (with collected header
cells and data rows) is consumed by the table-end branch without emitting a
`Spacer`: the `Table` is appended and the blank-line flag is left `false`,
so the next line's block follows the table directly, while a second
consecutive blank line does emit a `Spacer`.  The two concrete renders show
the end-to-end behaviour. -/
theorem c10_blank_after_table (st : ParseState) (b b2 : List Char)
    (next1 next2 : Option (List Char))
    (hca : st.codeBlockActive = false) (hta : st.tableActive = true)
    (hh : st.tableHeaderCells ≠ []) (hr : st.tableDataRows ≠ [])
    (hb : ∀ c ∈ b, jsWs c = true) (hb2 : ∀ c ∈ b2, jsWs c = true) :
    ((step st b next1).blocks =
        st.blocks ++ [Block.Table st.tableHeaderCells st.tableDataRows] ∧
      (step st b next1).previousLineWasEmpty = false ∧
      (step (step st b next1) b2 next2).blocks =
        st.blocks ++ [Block.Table st.tableHeaderCells st.tableDataRows, Block.Spacer]) ∧
    renderMarkdown "| A | B |\n| - | - |\n| 1 | 2 |\n\n# H" =
      [Block.Table ["A", "B"] [["1", "2"]], Block.Header 1 "H"] ∧
    renderMarkdown "| A | B |\n| - | - |\n| 1 | 2 |\n\n\n# H" =
      [Block.Table ["A", "B"] [["1", "2"]], Block.Spacer, Block.Header 1 "H"] := by
  refine ⟨?_, by decide, by decide⟩
  have h1 : step st b next1 = flushTable st := by
    rw [step_table_end st b next1 hca hta (fenceMatch_ws b hb) (tableRowMatch_ws b hb)
      (tableSepMatch_ws b hb), if_pos ((all_ws_iff_trim_empty b).mp hb)]
  have h2 : flushTable st =
      { st with blocks := st.blocks ++ [Block.Table st.tableHeaderCells st.tableDataRows],
                previousLineWasEmpty := false, tableActive := false,
                tableHeaderCells := [], tableDataRows := [] } :=
    flushTable_of_nonempty st hh hr
  refine ⟨by rw [h1, h2], by rw [h1, h2], ?_⟩
  have hmid_ca : (flushTable st).codeBlockActive = false := by rw [h2]; exact hca
  have hmid_ta : (flushTable st).tableActive = false := by rw [h2]
  have hmid_pe : (flushTable st).previousLineWasEmpty = false := by rw [h2]
  rw [h1, step_ws_normal (flushTable st) b2 next2 hmid_ca hmid_ta hb2,
    pushSpacer_of_not_empty (flushTable st) hmid_pe]
  show (flushTable st).blocks ++ [Block.Spacer] = _
  rw [h2]
  simp

/-- Witness for C10 at the concrete state reached after the three table
lines, with empty blank lines. -/
theorem c10_blank_after_table_witness :
    (step sampleTableState [] none).blocks = [Block.Table ["A", "B"] [["1", "2"]]] ∧
    (step (step sampleTableState [] none) [] none).blocks =
      [Block.Table ["A", "B"] [["1", "2"]], Block.Spacer] := by
  have h := c10_blank_after_table sampleTableState [] [] none none rfl rfl
    (by decide) (by decide)
    (by intro c hc; exact absurd hc (List.not_mem_nil c))
    (by intro c hc; exact absurd hc (List.not_mem_nil c))
  exact ⟨h.1.1, h.1.2.2⟩

/-- C8: (i) the three-line table input yields exactly one `Table` block with
headers `["A","B"]` and rows `[["1","2"]]`; (ii) the same header line
followed by any line that is not a valid separator yields a `Paragraph`
containing the header line's text; (iii) a detected table header with zero
data rows yields no block at all, both at end of input and before a
following line, and in general the table-flush and end-of-input-flush
helpers emit nothing when no data rows were collected. -/
theorem c8_table_recognition :
    renderMarkdown "| A | B |\n| - | - |\n| 1 | 2 |" =
      [Block.Table ["A", "B"] [["1", "2"]]] ∧
    (∀ l2 : List Char, '\n' ∉ l2 → '\r' ∉ l2 → tableSepMatch l2 = false →
      ∃ rest, renderMarkdown (String.mk ("| A | B |".data ++ '\n' :: l2)) =
        Block.Paragraph "| A | B |" :: rest) ∧
    renderMarkdown "| A | B |\n| - | - |" = [] ∧
    renderMarkdown "| A | B |\n| - | - |\nx" = [Block.Paragraph "x"] ∧
    (∀ st : ParseState, st.tableDataRows = [] →
      (flushTable st).blocks = st.blocks ∧ (finalizeTable st).blocks = st.blocks) := by
  refine ⟨by decide, ?_, by decide, by decide, ?_⟩
  · intro l2 hn hr hsep
    have hne : String.mk ("| A | B |".data ++ '\n' :: l2) ≠ "" := by
      simp [String.ext_iff]
    rw [renderMarkdown, if_neg hne]
    have hsplit : splitLines ("| A | B |".data ++ '\n' :: l2) =
        ["| A | B |".data, l2] := by
      rw [splitLines_append "| A | B |".data l2 (by decide) (by decide)]
      rw [splitLines_no_newline l2 hn hr]
    rw [show (String.mk ("| A | B |".data ++ '\n' :: l2)).data =
      "| A | B |".data ++ '\n' :: l2 from rfl, hsplit]
    have hstep1 : step initState "| A | B |".data (some l2) =
        appendBlock initState (Block.Paragraph "| A | B |") := by
      have hf : fenceMatch "| A | B |".data = none := by decide
      have hrow : tableRowMatch "| A | B |".data = some " A | B ".data := by decide
      simp only [step, initState, hf, hrow, hsep, Bool.false_eq_true, if_false]
    show ∃ rest, (finalize (processLines initState ["| A | B |".data, l2])).blocks = _
    rw [show processLines initState ["| A | B |".data, l2] =
      processLines (step initState "| A | B |".data (some l2)) [l2] from rfl, hstep1]
    obtain ⟨a1, h1⟩ := processLines_blocks [l2]
      (appendBlock initState (Block.Paragraph "| A | B |"))
    obtain ⟨a2, h2⟩ := finalize_blocks
      (processLines (appendBlock initState (Block.Paragraph "| A | B |")) [l2])
    rw [h2, h1, appendBlock_blocks]
    exact ⟨a1 ++ a2, by simp [initState]⟩
  · intro st hempty
    constructor
    · unfold flushTable
      rw [if_neg (fun hcon => hcon.2 hempty)]
    · unfold finalizeTable
      rw [if_neg (fun hcon => hcon.2.2 hempty)]

/-- Witness for C8's universal parts: the non-separator line `"x"` after the
header line yields the header-line `Paragraph` first, and the zero-row flush
of the initial state emits nothing. -/
theorem c8_table_recognition_witness :
    (∃ rest, renderMarkdown (String.mk ("| A | B |".data ++ '\n' :: "x".data)) =
      Block.Paragraph "| A | B |" :: rest) ∧
    (flushTable initState).blocks = [] := by
  refine ⟨c8_table_recognition.2.1 "x".data (by decide) (by decide) (by decide), ?_⟩
  exact (c8_table_recognition.2.2.2.2 initState rfl).1

theorem noLeadingSpacer_append (l : List Block) (b : Block)
    (h : noLeadingSpacer l = true) (hb : l = [] → isSpacer b = false) :
    noLeadingSpacer (l ++ [b]) = true := by
  cases l with
  | nil => simp [noLeadingSpacer, hb rfl]
  | cons a t => exact h

theorem noAdjacentSpacers_append (l : List Block) (b : Block)
    (h : noAdjacentSpacers l = true)
    (hb : isSpacer b = true → l.getLast? ≠ some Block.Spacer) :
    noAdjacentSpacers (l ++ [b]) = true := by
  induction l with
  | nil => rfl
  | cons a t ih =>
    cases t with
    | nil =>
      show (!(isSpacer a && isSpacer b) && noAdjacentSpacers [b]) = true
      have hbb : noAdjacentSpacers [b] = true := rfl
      cases hsb : isSpacer b with
      | false => simp [hsb, hbb]
      | true =>
        have ha : a ≠ Block.Spacer := by
          intro heq
          exact (hb hsb) (by rw [heq]; rfl)
        have hsa : isSpacer a = false := by
          cases a <;> first | rfl | exact absurd rfl ha
        simp [hsa, hbb]
    | cons c t2 =>
      have h1 : (!(isSpacer a && isSpacer c) && noAdjacentSpacers (c :: t2)) = true := h
      rw [Bool.and_eq_true] at h1
      have hb2 : isSpacer b = true → (c :: t2).getLast? ≠ some Block.Spacer := by
        intro hsb
        have := hb hsb
        rwa [List.getLast?_cons_cons] at this
      show (!(isSpacer a && isSpacer c) && noAdjacentSpacers (c :: t2 ++ [b])) = true
      rw [Bool.and_eq_true]
      exact ⟨h1.1, ih h1.2 hb2⟩

theorem spacerInv_appendBlock (st : ParseState) (b : Block)
    (hb : isSpacer b = false) (h : spacerInv st) : spacerInv (appendBlock st b) := by
  obtain ⟨h1, h2, _⟩ := h
  refine ⟨noLeadingSpacer_append _ b h1 (fun _ => hb),
    noAdjacentSpacers_append _ b h2 (fun hsb => absurd hsb (by simp [hb])), ?_⟩
  intro _
  constructor
  · show st.blocks ++ [b] ≠ []
    simp
  · show (st.blocks ++ [b]).getLast? ≠ some Block.Spacer
    rw [List.getLast?_concat]
    intro heq
    rw [Option.some.injEq] at heq
    rw [heq] at hb
    exact absurd hb (by simp [isSpacer])

theorem spacerInv_pushSpacer (st : ParseState) (h : spacerInv st) :
    spacerInv (pushSpacer st) := by
  unfold pushSpacer
  split
  · exact h
  · rename_i hpe
    rw [Bool.not_eq_true] at hpe
    obtain ⟨hne, hlast⟩ := h.2.2 hpe
    refine ⟨?_, noAdjacentSpacers_append _ _ h.2.1 (fun _ => hlast), ?_⟩
    · exact noLeadingSpacer_append _ _ h.1 (fun he => absurd he hne)
    · intro hfalse
      simp at hfalse

theorem spacerInv_flushTable (st : ParseState) (h : spacerInv st) :
    spacerInv (flushTable st) := by
  unfold flushTable
  split
  · exact spacerInv_appendBlock st _ rfl h
  · exact h

theorem spacerInv_normalClassify (st : ParseState) (line : List Char)
    (h : spacerInv st) : spacerInv (normalClassify st line) := by
  unfold normalClassify
  split
  · exact spacerInv_appendBlock st _ rfl h
  split
  · exact spacerInv_appendBlock st _ rfl h
  split
  · exact spacerInv_appendBlock st _ rfl h
  split
  · exact spacerInv_appendBlock st _ rfl h
  split
  · exact spacerInv_pushSpacer st h
  · exact spacerInv_appendBlock st _ rfl h

theorem spacerInv_step (st : ParseState) (line : List Char)
    (next? : Option (List Char)) (h : spacerInv st) :
    spacerInv (step st line next?) := by
  unfold step
  split
  · split
    · exact spacerInv_appendBlock st _ rfl h
    · exact h
  split
  · exact h
  split
  · split
    · split
      · exact h
      · exact h
    · split
      · split
        · exact h
        · exact spacerInv_appendBlock st _ rfl h
      · exact spacerInv_appendBlock st _ rfl h
  · split
    · split
      · exact h
      · split
        · exact spacerInv_flushTable st h
        · exact spacerInv_appendBlock (flushTable st) _ rfl (spacerInv_flushTable st h)
    · exact spacerInv_normalClassify st line h

theorem spacerInv_processLines (ls : List (List Char)) (st : ParseState)
    (h : spacerInv st) : spacerInv (processLines st ls) := by
  induction ls generalizing st with
  | nil => exact h
  | cons l rest ih => exact ih _ (spacerInv_step st l rest.head? h)

theorem spacerInv_finalize (st : ParseState) (h : spacerInv st) :
    spacerInv (finalize st) := by
  have h1 : spacerInv (finalizeCode st) := by
    unfold finalizeCode
    split
    · exact spacerInv_appendBlock st _ rfl h
    · exact h
  unfold finalize finalizeTable
  split
  · exact spacerInv_appendBlock _ _ rfl h1
  · exact h1

theorem spacerInv_initState : spacerInv initState :=
  ⟨rfl, rfl, fun hf => by simp [initState] at hf⟩

/-- C9: for every input, the emitted block sequence never begins with a
`Spacer` and never contains two adjacent `Spacer`s: a `Spacer` is pushed
only when the blank-line flag is `false`, the flag is initially `true`, and
only the emission of a non-`Spacer` block (`appendBlock`) resets it to
`false` — so leading blank lines produce no output block at all. -/
theorem c9_spacer_collapsing (s : String) :
    noLeadingSpacer (renderMarkdown s) = true ∧
    noAdjacentSpacers (renderMarkdown s) = true := by
  unfold renderMarkdown
  split
  · exact ⟨rfl, rfl⟩
  · have h := spacerInv_finalize _
      (spacerInv_processLines (splitLines s.data) initState spacerInv_initState)
    exact ⟨h.1, h.2.1⟩

/-! ### Code-fence lemmas (for the fence round-trip claim) -/

theorem fenceMatch_len (s : List Char) (c : Char) (n : Nat) (lang : List Char)
    (h : fenceMatch s = some (c, n, lang)) : 3 ≤ n := by
  simp only [fenceMatch] at h
  split at h
  · exact absurd h (by simp)
  · split at h
    · split at h
      · split at h
        · rename_i hrun hall
          rw [Option.some.injEq, Prod.mk.injEq] at h
          obtain ⟨-, h2⟩ := h
          rw [Prod.mk.injEq] at h2
          rw [← h2.1]
          exact hrun
        · exact absurd h (by simp)
      · exact absurd h (by simp)
    · exact absurd h (by simp)

theorem isClosingFence_replicate_iff (c₀ : Char) (m : Nat) (l : List Char) :
    isClosingFence (List.replicate (m + 1) c₀) l = true ↔
      ∃ n lang, fenceMatch l = some (c₀, n, lang) ∧ m + 1 ≤ n := by
  unfold isClosingFence
  cases hfm : fenceMatch l with
  | none => simp
  | some trip =>
    obtain ⟨c, n, lang⟩ := trip
    have hhead : (List.replicate (m + 1) c₀).head? = some c₀ := rfl
    have hlen : (List.replicate (m + 1) c₀).length = m + 1 := List.length_replicate _ _
    rw [hhead, hlen]
    simp only [Bool.and_eq_true, decide_eq_true_eq, Option.some.injEq]
    constructor
    · rintro ⟨rfl, hle⟩
      exact ⟨n, lang, rfl, hle⟩
    · rintro ⟨n', lang', heq, hle⟩
      rw [Prod.mk.injEq] at heq
      obtain ⟨rfl, heq2⟩ := heq
      rw [Prod.mk.injEq] at heq2
      exact ⟨rfl, heq2.1 ▸ hle⟩

theorem processLines_buffer (ks : List (List Char)) (closeL : List Char)
    (st : ParseState) (hca : st.codeBlockActive = true)
    (hks : ∀ l ∈ ks, isClosingFence st.codeBlockFence l = false)
    (hclose : isClosingFence st.codeBlockFence closeL = true) :
    processLines st (ks ++ [closeL]) =
      { st with
          blocks := st.blocks ++
            [Block.CodeBlock (st.codeBlockLines ++ ks.map String.mk)
              st.codeBlockLanguage],
          previousLineWasEmpty := false, codeBlockActive := false,
          codeBlockLines := [], codeBlockLanguage := none, codeBlockFence := [] } := by
  induction ks generalizing st with
  | nil =>
    show processLines (step st closeL none) [] = _
    rw [show step st closeL none =
      if isClosingFence st.codeBlockFence closeL then closeCode st
      else bufferCode st closeL by unfold step; rw [hca]; simp]
    rw [hclose]
    simp [processLines, closeCode, appendBlock]
  | cons k ks' ih =>
    show processLines (step st k (ks' ++ [closeL]).head?) (ks' ++ [closeL]) = _
    have hk : isClosingFence st.codeBlockFence k = false := hks k (List.mem_cons_self k ks')
    rw [show step st k (ks' ++ [closeL]).head? = bufferCode st k by
      unfold step; rw [hca]; simp [hk]]
    have ih2 := ih (bufferCode st k) hca
      (fun l hl => hks l (List.mem_cons_of_mem k hl)) hclose
    rw [ih2]
    simp [bufferCode]

theorem joinChar_cons_of_ne_nil (sep : Char) (l : List Char) (ls : List (List Char))
    (h : ls ≠ []) : joinChar sep (l :: ls) = l ++ sep :: joinChar sep ls := by
  cases ls with
  | nil => exact absurd rfl h
  | cons l2 ls2 => rfl

/-- C3: (i) in a code block opened by a fence of character `c` repeated `n`
times, a line closes the block exactly when it is itself a fence line of the
same character with run length at least `n`; (ii) an opening fence, `k`
interior lines none of which is a valid closing fence, and a matching
closing fence yield exactly one `CodeBlock` holding exactly those `k` lines
verbatim (the `CodeBlock` stores the raw lines; no inline processing is
applied to them). -/
theorem c3_fence_roundtrip :
    (∀ (st : ParseState) (c₀ : Char) (m : Nat) (line : List Char)
        (next? : Option (List Char)),
      st.codeBlockActive = true → st.codeBlockFence = List.replicate (m + 1) c₀ →
      ((step st line next?).codeBlockActive = false ↔
        ∃ n lang, fenceMatch line = some (c₀, n, lang) ∧ m + 1 ≤ n)) ∧
    (∀ (openL closeL : List Char) (ks : List (List Char)) (c : Char) (n : Nat)
        (lang : List Char),
      fenceMatch openL = some (c, n, lang) →
      (∀ l ∈ ks, ¬∃ n' lang', fenceMatch l = some (c, n', lang') ∧ n ≤ n') →
      (∃ n' lang', fenceMatch closeL = some (c, n', lang') ∧ n ≤ n') →
      (∀ l ∈ openL :: ks ++ [closeL], '\n' ∉ l ∧ '\r' ∉ l) →
      renderMarkdown (String.mk (joinLines (openL :: ks ++ [closeL]))) =
        [Block.CodeBlock (ks.map String.mk)
          (if lang.isEmpty then none else some (String.mk lang))]) := by
  constructor
  · intro st c₀ m line next? hca hfence
    rw [show step st line next? =
      if isClosingFence st.codeBlockFence line then closeCode st
      else bufferCode st line by unfold step; rw [hca]; simp]
    cases hcl : isClosingFence st.codeBlockFence line with
    | true =>
      simp only [if_true]
      rw [hfence] at hcl
      constructor
      · intro _; exact (isClosingFence_replicate_iff c₀ m line).mp hcl
      · intro _; rfl
    | false =>
      simp only [Bool.false_eq_true, if_false]
      rw [hfence] at hcl
      constructor
      · intro hcon
        rw [show (bufferCode st line).codeBlockActive = st.codeBlockActive from rfl,
          hca] at hcon
        exact absurd hcon (by simp)
      · intro hex
        rw [← isClosingFence_replicate_iff c₀ m line] at hex
        rw [hcl] at hex
        exact absurd hex (by simp)
  · intro openL closeL ks c n lang hopen hks hclose hlines
    obtain ⟨m, hm⟩ : ∃ m, n = m + 1 := by
      have := fenceMatch_len openL c n lang hopen
      exact ⟨n - 1, by omega⟩
    subst hm
    have hclose' : isClosingFence (List.replicate (m + 1) c) closeL = true :=
      (isClosingFence_replicate_iff c m closeL).mpr hclose
    have hks' : ∀ l ∈ ks, isClosingFence (List.replicate (m + 1) c) l = false := by
      intro l hl
      cases hv : isClosingFence (List.replicate (m + 1) c) l with
      | false => rfl
      | true => exact absurd ((isClosingFence_replicate_iff c m l).mp hv) (hks l hl)
    have hjoin : joinLines (openL :: ks ++ [closeL]) =
        openL ++ '\n' :: joinLines (ks ++ [closeL]) :=
      joinChar_cons_of_ne_nil '\n' openL (ks ++ [closeL]) (by simp)
    have hne : String.mk (joinLines (openL :: ks ++ [closeL])) ≠ "" := by
      rw [hjoin]
      simp [String.ext_iff]
    rw [renderMarkdown, if_neg hne]
    rw [show (String.mk (joinLines (openL :: ks ++ [closeL]))).data =
      joinLines (openL :: ks ++ [closeL]) from rfl]
    rw [splitLines_joinLines (openL :: ks ++ [closeL]) hlines (by simp)]
    show (finalize (processLines (step initState openL (ks ++ [closeL]).head?)
      (ks ++ [closeL]))).blocks = _
    rw [show step initState openL (ks ++ [closeL]).head? =
        { initState with
            codeBlockActive := true
            codeBlockFence := List.replicate (m + 1) c
            codeBlockLanguage :=
              if lang.isEmpty then none else some (String.mk lang) } by
      simp only [step, initState, hopen, Bool.false_eq_true, if_false]]
    rw [processLines_buffer ks closeL _ rfl hks' hclose']
    simp [finalize, finalizeCode, finalizeTable, initState]

/-- Witness for C3: a three-backtick fence around the line `**x**` is closed
by a three-backtick fence (part (i) instantiated in the open state, part
(ii) end to end: the interior line is stored verbatim). -/
theorem c3_fence_roundtrip_witness :
    ((step { initState with
              codeBlockActive := true
              codeBlockFence := List.replicate 3 '`' }
        "```".data none).codeBlockActive = false ↔
      ∃ n lang, fenceMatch "```".data = some ('`', n, lang) ∧ 3 ≤ n) ∧
    renderMarkdown (String.mk (joinLines (["```".data] ++ ["**x**".data] ++ ["```".data])) ) =
      [Block.CodeBlock ["**x**"] none] := by
  constructor
  · exact c3_fence_roundtrip.1 _ '`' 2 "```".data none rfl rfl
  · have h := c3_fence_roundtrip.2 "```".data "```".data ["**x**".data] '`' 3 []
      (by decide)
      (by
        intro l hl
        rw [List.mem_singleton] at hl
        subst hl
        rintro ⟨n', lang', heq, _⟩
        rw [show fenceMatch "**x**".data = none by decide] at heq
        exact absurd heq (by simp))
      ⟨3, [], by decide, le_refl 3⟩
      (by
        intro l hl
        simp only [List.cons_append, List.singleton_append, List.nil_append,
          List.mem_cons, List.mem_singleton, List.not_mem_nil, or_false] at hl
        rcases hl with h1 | h1 | h1 <;> subst h1 <;> decide)
    simpa using h

/-! ### Lemmas for the fence-preempts-table ordering claim -/

theorem step_table_sep (st : ParseState) (line : List Char)
    (next? : Option (List Char)) (hca : st.codeBlockActive = false)
    (hta : st.tableActive = true) (hf : fenceMatch line = none)
    (hsep : tableSepMatch line = true) : step st line next? = st := by
  simp only [step, hca, hta, hf, hsep, Bool.false_eq_true, if_false, if_true]
  split <;> rfl

theorem step_fence_open (st : ParseState) (line : List Char)
    (next? : Option (List Char)) (c : Char) (n : Nat) (lang : List Char)
    (hca : st.codeBlockActive = false)
    (hopen : fenceMatch line = some (c, n, lang)) :
    step st line next? =
      { st with
          codeBlockActive := true
          codeBlockFence := List.replicate n c
          codeBlockLanguage :=
            if lang.isEmpty then none else some (String.mk lang) } := by
  simp only [step, hca, hopen, Bool.false_eq_true, if_false]

theorem step_table_data_row (st : ParseState) (next? : Option (List Char))
    (hca : st.codeBlockActive = false) (hta : st.tableActive = true)
    (hh : st.tableHeaderCells = ["A", "B"]) :
    step st "| 1 | 2 |".data next? =
      { st with tableDataRows := st.tableDataRows ++ [["1", "2"]] } := by
  simp only [step, hca, hta,
    (by decide : fenceMatch "| 1 | 2 |".data = none),
    (by decide : tableRowMatch "| 1 | 2 |".data = some " 1 | 2 ".data),
    (by decide : tableSepMatch "| 1 | 2 |".data = false),
    Bool.false_eq_true, if_false, if_true, hh]
  rfl

theorem processLines_tableRows (j : Nat) (rest : List (List Char)) (st : ParseState)
    (hca : st.codeBlockActive = false) (hta : st.tableActive = true)
    (hh : st.tableHeaderCells = ["A", "B"]) :
    processLines st (List.replicate j "| 1 | 2 |".data ++ rest) =
      processLines
        { st with tableDataRows := st.tableDataRows ++ List.replicate j ["1", "2"] }
        rest := by
  induction j generalizing st with
  | zero => simp
  | succ j ih =>
    rw [List.replicate_succ, List.cons_append]
    show processLines (step st "| 1 | 2 |".data _) _ = _
    rw [step_table_data_row st _ hca hta hh]
    rw [ih { st with tableDataRows := st.tableDataRows ++ [["1", "2"]] } hca hta hh]
    congr 1
    simp [List.replicate_succ]

/-- C2 (amended): a code-fence line encountered while a table is open starts
the code block without flushing the pending table, so for every input
consisting of a table header, separator, any positive number of data rows,
and then a fenced code block, the `CodeBlock` is emitted before the `Table`
(which is only flushed at end of input). -/
theorem c2_fence_preempts_table_flush (k : Nat) :
    renderMarkdown (String.mk (joinLines
      ("| A | B |".data :: "| - | - |".data ::
        (List.replicate (k + 1) "| 1 | 2 |".data ++
          ["```".data, "code".data, "```".data])))) =
      [Block.CodeBlock ["code"] none,
       Block.Table ["A", "B"] (List.replicate (k + 1) ["1", "2"])] := by
  have hlines : ∀ l ∈ "| A | B |".data :: "| - | - |".data ::
      (List.replicate (k + 1) "| 1 | 2 |".data ++
        ["```".data, "code".data, "```".data]), '\n' ∉ l ∧ '\r' ∉ l := by
    intro l hl
    simp only [List.mem_cons, List.mem_append, List.mem_replicate,
      List.mem_singleton, List.not_mem_nil, or_false] at hl
    rcases hl with rfl | rfl | ⟨-, rfl⟩ | rfl | rfl | rfl <;> decide
  have hne : String.mk (joinLines ("| A | B |".data :: "| - | - |".data ::
      (List.replicate (k + 1) "| 1 | 2 |".data ++
        ["```".data, "code".data, "```".data]))) ≠ "" := by
    rw [show joinLines ("| A | B |".data :: "| - | - |".data ::
        (List.replicate (k + 1) "| 1 | 2 |".data ++
          ["```".data, "code".data, "```".data])) =
      "| A | B |".data ++ '\n' :: joinLines ("| - | - |".data ::
        (List.replicate (k + 1) "| 1 | 2 |".data ++
          ["```".data, "code".data, "```".data])) from
      joinChar_cons_of_ne_nil '\n' _ _ (by simp)]
    simp [String.ext_iff]
  rw [renderMarkdown, if_neg hne]
  rw [show (String.mk (joinLines ("| A | B |".data :: "| - | - |".data ::
      (List.replicate (k + 1) "| 1 | 2 |".data ++
        ["```".data, "code".data, "```".data])))).data =
    joinLines ("| A | B |".data :: "| - | - |".data ::
      (List.replicate (k + 1) "| 1 | 2 |".data ++
        ["```".data, "code".data, "```".data])) from rfl]
  rw [splitLines_joinLines _ hlines (by simp)]
  show (finalize (processLines
    (step initState "| A | B |".data _) ("| - | - |".data ::
      (List.replicate (k + 1) "| 1 | 2 |".data ++
        ["```".data, "code".data, "```".data])))).blocks = _
  rw [show step initState "| A | B |".data (("| - | - |".data ::
      (List.replicate (k + 1) "| 1 | 2 |".data ++
        ["```".data, "code".data, "```".data])).head?) =
      { initState with
          tableActive := true
          tableHeaderCells := ["A", "B"]
          tableDataRows := [] } by
    simp only [List.head?_cons, step, initState,
      (by decide : fenceMatch "| A | B |".data = none),
      (by decide : tableRowMatch "| A | B |".data = some " A | B ".data),
      (by decide : tableSepMatch "| - | - |".data = true),
      Bool.false_eq_true, if_false, if_true]
    rfl]
  show (finalize (processLines
    (step _ "| - | - |".data _) (List.replicate (k + 1) "| 1 | 2 |".data ++
      ["```".data, "code".data, "```".data]))).blocks = _
  rw [step_table_sep _ "| - | - |".data _ rfl rfl (by decide) (by decide)]
  rw [processLines_tableRows (k + 1) _ _ rfl rfl rfl]
  show (finalize (processLines (step _ "```".data _) ["code".data, "```".data])).blocks = _
  rw [step_fence_open _ "```".data _ '`' 3 [] rfl (by decide)]
  rw [show ["code".data, "```".data] = ["code".data] ++ ["```".data] from rfl]
  rw [processLines_buffer ["code".data] "```".data _ rfl
    (by
      intro l hl
      rw [List.mem_singleton] at hl
      subst hl
      show isClosingFence (List.replicate 3 '`') "code".data = false
      decide)
    (by
      show isClosingFence (List.replicate 3 '`') "```".data = true
      decide)]
  show (finalizeTable (finalizeCode _)).blocks = _
  rw [show ∀ st : ParseState, st.codeBlockActive = false → finalizeCode st = st from
    fun st h => by unfold finalizeCode; rw [h]; simp]
  · unfold finalizeTable
    rw [if_pos ⟨rfl, by simp, by simp⟩]
    rfl
  · rfl

/-! ### Marker-stripping lemmas (for the width-calculator claims) -/

theorem plain_not_mem (cs : List Char) (h : ∀ c ∈ cs, plainChar c = true)
    (x : Char) (hx : plainChar x = false) : x ∉ cs := by
  intro hm
  rw [h x hm] at hx
  exact absurd hx (by simp)

theorem startsWithL_append_self (R t : List Char) : startsWithL (R ++ t) R = true := by
  induction R with
  | nil => cases t <;> rfl
  | cons r R' ih => simp [startsWithL, ih]

theorem startsWithL_head_ne (c : Char) (t : List Char) (l₀ : Char) (L' : List Char)
    (h : c ≠ l₀) : startsWithL (c :: t) (l₀ :: L') = false := by
  simp [startsWithL, h]

theorem stripDelimGo_nil (L R : List Char) (fuel : Nat) :
    stripDelimGo L R fuel [] = [] := by
  cases fuel <;> rfl

theorem stripDelimGo_id (L R : List Char) (l₀ : Char) (hL : L.head? = some l₀)
    (fuel : Nat) (cs : List Char) (h : l₀ ∉ cs) : stripDelimGo L R fuel cs = cs := by
  induction fuel generalizing cs with
  | zero => rfl
  | succ fuel ih =>
    cases cs with
    | nil => rfl
    | cons c t =>
      simp only [List.mem_cons, not_or] at h
      cases L with
      | nil => exact absurd hL (by simp)
      | cons x L' =>
        have hx : x = l₀ := by
          rw [show (x :: L').head? = some x from rfl, Option.some.injEq] at hL
          exact hL
        subst hx
        rw [stripDelimGo, startsWithL_head_ne c t x L' (fun hc => h.1 hc.symm)]
        simp only [Bool.false_eq_true, if_false]
        rw [ih t h.2]

theorem stripDelim_id (L R : List Char) (l₀ : Char) (hL : L.head? = some l₀)
    (cs : List Char) (h : l₀ ∉ cs) : stripDelim L R cs = cs :=
  stripDelimGo_id L R l₀ hL (cs.length + 1) cs h

theorem splitFirstMatch_exact (R : List Char) (r₀ : Char) (hR : R.head? = some r₀)
    (w t : List Char) (hw : r₀ ∉ w) (hn : '\n' ∉ w) :
    splitFirstMatch R (w ++ (R ++ t)) = some (w, t) := by
  induction w with
  | nil =>
    cases R with
    | nil => exact absurd hR (by simp)
    | cons x R' =>
      rw [List.nil_append, show ((x :: R') ++ t : List Char) = x :: (R' ++ t) from rfl]
      rw [splitFirstMatch]
      rw [show (x :: (R' ++ t) : List Char) = (x :: R') ++ t from rfl]
      rw [startsWithL_append_self (x :: R') t]
      simp only [if_true]
      rw [List.drop_left' (by rfl)]
  | cons c w' ih =>
    simp only [List.mem_cons, not_or] at hw hn
    cases R with
    | nil => exact absurd hR (by simp)
    | cons x R' =>
      have hx : x = r₀ := by
        rw [show (x :: R').head? = some x from rfl, Option.some.injEq] at hR
        exact hR
      subst hx
      rw [List.cons_append, splitFirstMatch,
        startsWithL_head_ne c _ x R' (fun hc => hw.1 hc.symm)]
      simp only [Bool.false_eq_true, if_false]
      rw [if_neg (fun hc => hn.1 hc.symm)]
      rw [ih hw.2 hn.2]

theorem stripDelimGo_once (L R : List Char) (l₀ r₀ : Char)
    (hL : L.head? = some l₀) (hR : R.head? = some r₀) (s w : List Char)
    (hs : l₀ ∉ s) (hw : r₀ ∉ w) (hn : '\n' ∉ w) (fuel : Nat)
    (hfuel : s.length + 1 ≤ fuel) :
    stripDelimGo L R fuel (s ++ (L ++ (w ++ R))) = s ++ w := by
  induction s generalizing fuel with
  | nil =>
    obtain ⟨f, rfl⟩ : ∃ f, fuel = f + 1 := ⟨fuel - 1, by omega⟩
    cases L with
    | nil => exact absurd hL (by simp)
    | cons x L' =>
      rw [List.nil_append, List.cons_append, stripDelimGo]
      rw [show (x :: (L' ++ (w ++ R)) : List Char) = (x :: L') ++ (w ++ R) from rfl]
      rw [startsWithL_append_self (x :: L') (w ++ R)]
      simp only [if_true]
      rw [List.drop_left' (by rfl)]
      rw [show (w ++ R : List Char) = w ++ (R ++ []) from by simp]
      rw [splitFirstMatch_exact R r₀ hR w [] hw hn]
      show w ++ stripDelimGo (x :: L') R f [] = [] ++ w
      rw [stripDelimGo_nil]
      simp
  | cons c s' ih =>
    obtain ⟨f, rfl⟩ : ∃ f, fuel = f + 1 := ⟨fuel - 1, by omega⟩
    simp only [List.mem_cons, not_or] at hs
    cases L with
    | nil => exact absurd hL (by simp)
    | cons x L' =>
      have hx : x = l₀ := by
        rw [show (x :: L').head? = some x from rfl, Option.some.injEq] at hL
        exact hL
      subst hx
      rw [List.cons_append, stripDelimGo,
        startsWithL_head_ne c _ x L' (fun hc => hs.1 hc.symm)]
      simp only [Bool.false_eq_true, if_false]
      rw [ih hs.2 f (by simp at hfuel; omega), List.cons_append]

theorem stripDelim_once (L R : List Char) (l₀ r₀ : Char)
    (hL : L.head? = some l₀) (hR : R.head? = some r₀) (s w : List Char)
    (hs : l₀ ∉ s) (hw : r₀ ∉ w) (hn : '\n' ∉ w) :
    stripDelim L R (s ++ (L ++ (w ++ R))) = s ++ w := by
  refine stripDelimGo_once L R l₀ r₀ hL hR s w hs hw hn _ ?_
  simp only [List.length_append]
  omega

theorem segLink_no_bracket (seg : List Char) (h : '[' ∉ seg) (fuel : Nat) :
    segLink fuel seg = seg := by
  have hq : lastViableQ seg = none := by
    rw [lastViableQ, List.find?_eq_none]
    intro q _
    rw [viableQ]
    cases hg : seg.get? q with
    | none => simp
    | some c =>
      have hc : c ≠ '[' := fun hc => h (hc ▸ List.get?_mem hg)
      simp [hc]
  cases fuel with
  | zero => rfl
  | succ f => rw [segLink, hq]

theorem map_eq_self_of_eq {α : Type} (f : α → α) (l : List α)
    (h : ∀ a ∈ l, f a = a) : l.map f = l := by
  induction l with
  | nil => rfl
  | cons a t ih =>
    rw [List.map_cons, h a (List.mem_cons_self a t),
      ih (fun b hb => h b (List.mem_cons_of_mem a hb))]

theorem linkCollapse_id (cs : List Char) (h : '[' ∉ cs) : linkCollapse cs = cs := by
  rw [linkCollapse, map_eq_self_of_eq, joinChar_splitOnChar]
  intro seg hseg
  refine segLink_no_bracket seg ?_ (seg.length + 1)
  intro hm
  exact h (mem_of_mem_splitOnChar '\n' cs seg '[' hseg hm)

theorem stripForWidth_id (cs : List Char) (h : ∀ c ∈ cs, plainChar c = true) :
    stripForWidth cs = cs := by
  rw [stripForWidth,
    stripDelim_id "**".data "**".data '*' rfl cs (plain_not_mem cs h '*' (by decide)),
    stripDelim_id "*".data "*".data '*' rfl cs (plain_not_mem cs h '*' (by decide)),
    stripDelim_id "_".data "_".data '_' rfl cs (plain_not_mem cs h '_' (by decide)),
    stripDelim_id "~~".data "~~".data '~' rfl cs (plain_not_mem cs h '~' (by decide)),
    stripDelim_id "`".data "`".data '`' rfl cs (plain_not_mem cs h '`' (by decide)),
    stripDelim_id "<u>".data "</u>".data '<' rfl cs (plain_not_mem cs h '<' (by decide)),
    linkCollapse_id cs (plain_not_mem cs h '[' (by decide))]

theorem displayWidthSum_append (a b : List Char) :
    displayWidthSum (a ++ b) = displayWidthSum a + displayWidthSum b := by
  simp [displayWidthSum]

theorem displayWidthSum_of_ones (s : List Char)
    (h : ∀ c ∈ s, charDisplayWidth c = 1) : displayWidthSum s = s.length := by
  induction s with
  | nil => rfl
  | cons c t ih =>
    rw [show displayWidthSum (c :: t) = charDisplayWidth c + displayWidthSum t from by
      simp [displayWidthSum]]
    rw [h c (List.mem_cons_self c t), ih (fun b hb => h b (List.mem_cons_of_mem c hb))]
    simp [Nat.add_comm]

theorem jsSubstringUnits_bmp (s : List Char) (h : ∀ c ∈ s, c.toNat < 0x10000)
    (k : Nat) : jsSubstringUnits k s = s.take k := by
  induction s generalizing k with
  | nil => cases k <;> rfl
  | cons c t ih =>
    cases k with
    | zero => rfl
    | succ k =>
      rw [jsSubstringUnits, if_pos (h c (List.mem_cons_self c t))]
      rw [ih (fun b hb => h b (List.mem_cons_of_mem c hb)) k]
      rfl

theorem not_mem_append_of (x : Char) (a b : List Char) (ha : x ∉ a) (hb : x ∉ b) :
    x ∉ a ++ b := by
  intro hm
  rcases List.mem_append.mp hm with h | h
  · exact ha h
  · exact hb h

theorem plain_chars_append (a b : List Char) (ha : ∀ c ∈ a, plainChar c = true)
    (hb : ∀ c ∈ b, plainChar c = true) : ∀ c ∈ a ++ b, plainChar c = true := by
  intro c hc
  rcases List.mem_append.mp hc with h | h
  · exact ha c h
  · exact hb c h

/-- C7 (amended): `calculateTextWidth` is the per-character display-width
sum (2 for wide-glyph code points, 1 otherwise) of the text left by its
replacement chain.  For marker-free strings this is the plain per-character
sum; the bold/italic/strike/code/underline wrappers around marker-free text
never inflate the width, and plain text surrounding such a wrapper sums
correctly; but the link rule consumes everything before the link (its regex
begins with a greedy `.*`), so `"ab [cd](ef)"` measures 2 (the label only),
not the claimed marker-stripped sum 7. -/
theorem c7_width_after_stripping (s w : List Char)
    (hs : ∀ c ∈ s, plainChar c = true) (hw : ∀ c ∈ w, plainChar c = true) :
    calculateTextWidth (String.mk s) = displayWidthSum s ∧
    calculateTextWidth (String.mk (s ++ ("**".data ++ (w ++ "**".data)))) =
      displayWidthSum s + displayWidthSum w ∧
    calculateTextWidth (String.mk ("_".data ++ (w ++ "_".data))) =
      displayWidthSum w ∧
    calculateTextWidth (String.mk ("~~".data ++ (w ++ "~~".data))) =
      displayWidthSum w ∧
    calculateTextWidth (String.mk ("`".data ++ (w ++ "`".data))) =
      displayWidthSum w ∧
    calculateTextWidth (String.mk ("<u>".data ++ (w ++ "</u>".data))) =
      displayWidthSum w ∧
    calculateTextWidth "ab [cd](ef)" = 2 ∧ calculateTextWidth "[cd](ef)" = 2 := by
  have hsw : ∀ c ∈ s ++ w, plainChar c = true := plain_chars_append s w hs hw
  have hbold : stripDelim "**".data "**".data
      (s ++ ("**".data ++ (w ++ "**".data))) = s ++ w :=
    stripDelim_once "**".data "**".data '*' '*' rfl rfl s w
      (plain_not_mem s hs '*' (by decide)) (plain_not_mem w hw '*' (by decide))
      (plain_not_mem w hw '\n' (by decide))
  refine ⟨?_, ?_, ?_, ?_, ?_, ?_, by decide, by decide⟩
  · show displayWidthSum (stripForWidth s) = displayWidthSum s
    rw [stripForWidth_id s hs]
  · show displayWidthSum (stripForWidth (s ++ ("**".data ++ (w ++ "**".data)))) = _
    rw [stripForWidth, hbold,
      stripDelim_id "*".data "*".data '*' rfl _ (plain_not_mem _ hsw '*' (by decide)),
      stripDelim_id "_".data "_".data '_' rfl _ (plain_not_mem _ hsw '_' (by decide)),
      stripDelim_id "~~".data "~~".data '~' rfl _ (plain_not_mem _ hsw '~' (by decide)),
      stripDelim_id "`".data "`".data '`' rfl _ (plain_not_mem _ hsw '`' (by decide)),
      stripDelim_id "<u>".data "</u>".data '<' rfl _ (plain_not_mem _ hsw '<' (by decide)),
      linkCollapse_id _ (plain_not_mem _ hsw '[' (by decide)),
      displayWidthSum_append]
  · show displayWidthSum (stripForWidth ("_".data ++ (w ++ "_".data))) = _
    have h1 : '*' ∉ "_".data ++ (w ++ "_".data) :=
      not_mem_append_of '*' _ _ (by decide)
        (not_mem_append_of '*' _ _ (plain_not_mem w hw '*' (by decide)) (by decide))
    rw [stripForWidth,
      stripDelim_id "**".data "**".data '*' rfl _ h1,
      stripDelim_id "*".data "*".data '*' rfl _ h1,
      show ("_".data ++ (w ++ "_".data) : List Char) =
        [] ++ ("_".data ++ (w ++ "_".data)) from rfl,
      stripDelim_once "_".data "_".data '_' '_' rfl rfl [] w
        (by simp) (plain_not_mem w hw '_' (by decide))
        (plain_not_mem w hw '\n' (by decide)),
      List.nil_append,
      stripDelim_id "~~".data "~~".data '~' rfl _ (plain_not_mem _ hw '~' (by decide)),
      stripDelim_id "`".data "`".data '`' rfl _ (plain_not_mem _ hw '`' (by decide)),
      stripDelim_id "<u>".data "</u>".data '<' rfl _ (plain_not_mem _ hw '<' (by decide)),
      linkCollapse_id _ (plain_not_mem _ hw '[' (by decide))]
  · show displayWidthSum (stripForWidth ("~~".data ++ (w ++ "~~".data))) = _
    have h1 : '*' ∉ "~~".data ++ (w ++ "~~".data) :=
      not_mem_append_of '*' _ _ (by decide)
        (not_mem_append_of '*' _ _ (plain_not_mem w hw '*' (by decide)) (by decide))
    have h2 : '_' ∉ "~~".data ++ (w ++ "~~".data) :=
      not_mem_append_of '_' _ _ (by decide)
        (not_mem_append_of '_' _ _ (plain_not_mem w hw '_' (by decide)) (by decide))
    rw [stripForWidth,
      stripDelim_id "**".data "**".data '*' rfl _ h1,
      stripDelim_id "*".data "*".data '*' rfl _ h1,
      stripDelim_id "_".data "_".data '_' rfl _ h2,
      show ("~~".data ++ (w ++ "~~".data) : List Char) =
        [] ++ ("~~".data ++ (w ++ "~~".data)) from rfl,
      stripDelim_once "~~".data "~~".data '~' '~' rfl rfl [] w
        (by simp) (plain_not_mem w hw '~' (by decide))
        (plain_not_mem w hw '\n' (by decide)),
      List.nil_append,
      stripDelim_id "`".data "`".data '`' rfl _ (plain_not_mem _ hw '`' (by decide)),
      stripDelim_id "<u>".data "</u>".data '<' rfl _ (plain_not_mem _ hw '<' (by decide)),
      linkCollapse_id _ (plain_not_mem _ hw '[' (by decide))]
  · show displayWidthSum (stripForWidth ("`".data ++ (w ++ "`".data))) = _
    have h1 : '*' ∉ "`".data ++ (w ++ "`".data) :=
      not_mem_append_of '*' _ _ (by decide)
        (not_mem_append_of '*' _ _ (plain_not_mem w hw '*' (by decide)) (by decide))
    have h2 : '_' ∉ "`".data ++ (w ++ "`".data) :=
      not_mem_append_of '_' _ _ (by decide)
        (not_mem_append_of '_' _ _ (plain_not_mem w hw '_' (by decide)) (by decide))
    have h3 : '~' ∉ "`".data ++ (w ++ "`".data) :=
      not_mem_append_of '~' _ _ (by decide)
        (not_mem_append_of '~' _ _ (plain_not_mem w hw '~' (by decide)) (by decide))
    rw [stripForWidth,
      stripDelim_id "**".data "**".data '*' rfl _ h1,
      stripDelim_id "*".data "*".data '*' rfl _ h1,
      stripDelim_id "_".data "_".data '_' rfl _ h2,
      stripDelim_id "~~".data "~~".data '~' rfl _ h3,
      show ("`".data ++ (w ++ "`".data) : List Char) =
        [] ++ ("`".data ++ (w ++ "`".data)) from rfl,
      stripDelim_once "`".data "`".data '`' '`' rfl rfl [] w
        (by simp) (plain_not_mem w hw '`' (by decide))
        (plain_not_mem w hw '\n' (by decide)),
      List.nil_append,
      stripDelim_id "<u>".data "</u>".data '<' rfl _ (plain_not_mem _ hw '<' (by decide)),
      linkCollapse_id _ (plain_not_mem _ hw '[' (by decide))]
  · show displayWidthSum (stripForWidth ("<u>".data ++ (w ++ "</u>".data))) = _
    have h1 : '*' ∉ "<u>".data ++ (w ++ "</u>".data) :=
      not_mem_append_of '*' _ _ (by decide)
        (not_mem_append_of '*' _ _ (plain_not_mem w hw '*' (by decide)) (by decide))
    have h2 : '_' ∉ "<u>".data ++ (w ++ "</u>".data) :=
      not_mem_append_of '_' _ _ (by decide)
        (not_mem_append_of '_' _ _ (plain_not_mem w hw '_' (by decide)) (by decide))
    have h3 : '~' ∉ "<u>".data ++ (w ++ "</u>".data) :=
      not_mem_append_of '~' _ _ (by decide)
        (not_mem_append_of '~' _ _ (plain_not_mem w hw '~' (by decide)) (by decide))
    have h4 : '`' ∉ "<u>".data ++ (w ++ "</u>".data) :=
      not_mem_append_of '`' _ _ (by decide)
        (not_mem_append_of '`' _ _ (plain_not_mem w hw '`' (by decide)) (by decide))
    rw [stripForWidth,
      stripDelim_id "**".data "**".data '*' rfl _ h1,
      stripDelim_id "*".data "*".data '*' rfl _ h1,
      stripDelim_id "_".data "_".data '_' rfl _ h2,
      stripDelim_id "~~".data "~~".data '~' rfl _ h3,
      stripDelim_id "`".data "`".data '`' rfl _ h4,
      show ("<u>".data ++ (w ++ "</u>".data) : List Char) =
        [] ++ ("<u>".data ++ (w ++ "</u>".data)) from rfl,
      stripDelim_once "<u>".data "</u>".data '<' '<' rfl rfl [] w
        (by simp) (plain_not_mem w hw '<' (by decide))
        (plain_not_mem w hw '\n' (by decide)),
      List.nil_append,
      linkCollapse_id _ (plain_not_mem _ hw '[' (by decide))]

/-- Witness for C7 (amended) with the plain text `"ab"` and the wrapped
text `"x가"` (one narrow and one wide character, so the sums are visible). -/
theorem c7_width_after_stripping_witness :
    calculateTextWidth "ab" = 2 ∧ calculateTextWidth "ab**x가**" = 5 ∧
    calculateTextWidth "_x가_" = 3 := by
  have h := c7_width_after_stripping "ab".data "x가".data (by decide) (by decide)
  refine ⟨?_, ?_, ?_⟩
  · have h1 := h.1
    rw [show String.mk "ab".data = "ab" from rfl] at h1
    rw [h1]
    decide
  · have h1 := h.2.1
    rw [show String.mk ("ab".data ++ ("**".data ++ ("x가".data ++ "**".data))) =
      "ab**x가**" from rfl] at h1
    rw [h1]
    decide
  · have h1 := h.2.2.1
    rw [show String.mk ("_".data ++ ("x가".data ++ "_".data)) = "_x가_" from rfl] at h1
    rw [h1]
    decide

/-- C6 (amended): (i) when the required table width exceeds the available
width, every column's final width equals (hence is at most) its proportional
target `⌊desired * available / required⌋` — stated for the exact-rational
model of the JS floating-point arithmetic; (ii) the rendered cell text
(truncated content plus ellipsis) fits the column's inner width for cells of
single-column BMP marker-free characters whenever the inner width is at
least 3; for inner widths below 3 the bare ellipsis (3 columns) already
overflows, and wide glyphs can overflow because `substring` truncates by
code units, not display columns (see the counterexample). -/
theorem c6_layout_bounds :
    (∀ (columnHeaders : List String) (dataRows : List (List String)) (maxWidth : Nat),
      maxWidth < totalRequiredWidth (widthPerColumn columnHeaders dataRows) →
      ∀ i : Nat,
        (finalWidths columnHeaders dataRows maxWidth).getD i 0 ≤
          specProportionalTarget ((widthPerColumn columnHeaders dataRows).getD i 0)
            maxWidth (totalRequiredWidth (widthPerColumn columnHeaders dataRows))) ∧
    (∀ (s : List Char) (cellWidth : Nat),
      (∀ c ∈ s, plainChar c = true ∧ charDisplayWidth c = 1 ∧ c.toNat < 0x10000) →
      5 ≤ cellWidth →
      calculateTextWidth (buildCellText (String.mk s) cellWidth) ≤ cellWidth - 2) := by
  constructor
  · intro columnHeaders dataRows maxWidth hlt i
    simp only [finalWidths, specProportionalTarget, shrinkRatio]
    rw [if_pos hlt]
    rcases Nat.lt_or_ge i (widthPerColumn columnHeaders dataRows).length with hi | hi
    · have hmap : ((widthPerColumn columnHeaders dataRows).map
          (fun w : Nat => (⌊(w : ℚ) * ((maxWidth : ℚ) / (totalRequiredWidth
            (widthPerColumn columnHeaders dataRows) : ℚ))⌋).toNat)).getD i 0 =
          (⌊((widthPerColumn columnHeaders dataRows).getD i 0 : ℚ) *
            ((maxWidth : ℚ) / (totalRequiredWidth
              (widthPerColumn columnHeaders dataRows) : ℚ))⌋).toNat := by
        rw [List.getD_eq_getElem?_getD, List.getElem?_map,
          List.getElem?_eq_getElem hi]
        rw [List.getD_eq_getElem?_getD, List.getElem?_eq_getElem hi]
        rfl
      rw [hmap, mul_div_assoc]
    · have hnone : ((widthPerColumn columnHeaders dataRows).map
          (fun w : Nat => (⌊(w : ℚ) * ((maxWidth : ℚ) / (totalRequiredWidth
            (widthPerColumn columnHeaders dataRows) : ℚ))⌋).toNat)).getD i 0 = 0 := by
        rw [List.getD_eq_getElem?_getD, List.getElem?_map]
        rw [List.getElem?_eq_none (by simpa using hi)]
        rfl
      rw [hnone]
      exact Nat.zero_le _
  · intro s cellWidth hchars hcw
    have hplain : ∀ c ∈ s, plainChar c = true := fun c hc => (hchars c hc).1
    have hones : ∀ c ∈ s, charDisplayWidth c = 1 := fun c hc => (hchars c hc).2.1
    have hbmp : ∀ c ∈ s, c.toNat < 0x10000 := fun c hc => (hchars c hc).2.2
    have hwidth : calculateTextWidth (String.mk s) = s.length := by
      show displayWidthSum (stripForWidth s) = s.length
      rw [stripForWidth_id s hplain, displayWidthSum_of_ones s hones]
    simp only [buildCellText]
    split
    · rename_i htr
      rw [jsSubstringUnits_bmp s hbmp (cellWidth - 2 - 3)]
      have htake_plain : ∀ c ∈ s.take (cellWidth - 2 - 3) ++ "...".data,
          plainChar c = true := by
        intro c hc
        rcases List.mem_append.mp hc with h | h
        · exact hplain c (List.take_subset _ s h)
        · exact (by decide : ∀ c ∈ "...".data, plainChar c = true) c h
      show displayWidthSum (stripForWidth _) ≤ _
      rw [stripForWidth_id _ htake_plain, displayWidthSum_append]
      have h1 : displayWidthSum (s.take (cellWidth - 2 - 3)) ≤ cellWidth - 2 - 3 := by
        rw [displayWidthSum_of_ones _
          (fun c hc => hones c (List.take_subset _ s hc))]
        simp [List.length_take]
      have h2 : displayWidthSum "...".data = 3 := rfl
      omega
    · rename_i htr
      rw [Nat.not_lt] at htr
      exact htr

/-- Witness for C6 (amended): two over-wide columns shrunk into width 10
meet their proportional targets, and the ASCII cell `"abcdefgh"` truncated
into a column of width 7 renders at display width at most 5. -/
theorem c6_layout_bounds_witness :
    (10 < totalRequiredWidth (widthPerColumn ["AAAAAA", "BBBBBB"] []) ∧
      (finalWidths ["AAAAAA", "BBBBBB"] [] 10).getD 0 0 ≤
        specProportionalTarget ((widthPerColumn ["AAAAAA", "BBBBBB"] []).getD 0 0)
          10 (totalRequiredWidth (widthPerColumn ["AAAAAA", "BBBBBB"] []))) ∧
    calculateTextWidth (buildCellText "abcdefgh" 7) ≤ 5 := by
  constructor
  · exact ⟨by decide, c6_layout_bounds.1 ["AAAAAA", "BBBBBB"] [] 10 (by decide) 0⟩
  · exact c6_layout_bounds.2 "abcdefgh".data 7 (by decide) (by decide)

end Cokacdir
